import Mathlib

/-!
# RTCP feedback packets: PictureLossIndication and FullIntraRequest

A shallow embedding of `picture_loss_indication.go` and `full_intra_request.go`.

* Go `byte`, `uint16`, `uint32` are `Fin 256`, `Fin 65536`, `Fin 4294967296`;
  arithmetic that Go performs at a fixed width is written on `Nat` with an
  explicit `% 65536`.
* Go `int` (64 bit) is `Nat`: every `int` computed here is a small affine
  function of a slice length.
* A `[]byte` is a `List Byte`.  A function that writes into a buffer of the caller
  returns the buffer after the writes.
* A method with a pointer receiver that mutates it (`Unmarshal`) takes the
  value of the receiver before the call and returns its value after the call,
  together with the Go `error` result.
* A run-time panic (index out of range) is the outcome `Fault.panic`.
-/

namespace Rtcp

set_option autoImplicit false

/-! ## Machine integers and byte-order helpers -/

abbrev Byte := Fin 256
abbrev U16 := Fin 65536
abbrev U32 := Fin 4294967296

/-- Go conversion `byte(x)`: keeps the low 8 bits. -/
def toByte (n : Nat) : Byte := ⟨n % 256, Nat.mod_lt _ (by decide)⟩

/-- Go conversion `uint16(x)`: keeps the low 16 bits. -/
def toU16 (n : Nat) : U16 := ⟨n % 65536, Nat.mod_lt _ (by decide)⟩

/-- Big-endian value of four bytes. -/
def be32 (a b c d : Byte) : U32 :=
  ⟨a.val * 16777216 + b.val * 65536 + c.val * 256 + d.val, by
    have := a.isLt; have := b.isLt; have := c.isLt; have := d.isLt; omega⟩

/-- Big-endian value of two bytes. -/
def be16 (a b : Byte) : U16 :=
  ⟨a.val * 256 + b.val, by have := a.isLt; have := b.isLt; omega⟩

/-- The four bytes `byte(v>>24), byte(v>>16), byte(v>>8), byte(v)` that
`binary.BigEndian.PutUint32` stores. -/
def bytes32 (v : U32) : List Byte :=
  [toByte (v.val / 16777216), toByte (v.val / 65536), toByte (v.val / 256), toByte v.val]

/-- The two bytes `byte(v>>8), byte(v)` that `binary.BigEndian.PutUint16` stores. -/
def bytes16 (v : U16) : List Byte :=
  [toByte (v.val / 256), toByte v.val]

/-- Go errors returned by the codec.  `errPacketTooShort` and `errWrongType` are
named in the source; `errHeaderBuffer` is the header-write failure. -/
inductive Err
  | errPacketTooShort
  | errWrongType
  | errHeaderBuffer
  deriving DecidableEq

/-- How a call can end other than by returning a `nil` error: a returned Go
error, a run-time panic, or the loop budget of the embedding running out
(shown below never to happen). -/
inductive Fault
  | error (e : Err)
  | panic
  | fuel
  deriving DecidableEq

instance instDecidableEqExcept {ε α : Type} [DecidableEq ε] [DecidableEq α] :
    DecidableEq (Except ε α)
  | .ok a, .ok b => if h : a = b then isTrue (by rw [h]) else isFalse (fun h2 => h (Except.ok.inj h2))
  | .error a, .error b =>
    if h : a = b then isTrue (by rw [h]) else isFalse (fun h2 => h (Except.error.inj h2))
  | .ok _, .error _ => isFalse (fun h => Except.noConfusion h)
  | .error _, .ok _ => isFalse (fun h => Except.noConfusion h)

/-- Go `binary.BigEndian.Uint32(raw[off:])`: `none` is the panic of the slice
expression (`off > len(raw)`) or of the read (fewer than 4 bytes left). -/
def Uint32 (raw : List Byte) (off : Nat) : Option U32 :=
  match raw.drop off with
  | a :: b :: c :: d :: _ => some (be32 a b c d)
  | _ => none

/-- Go `binary.BigEndian.PutUint32(buf[off:], v)`: the buffer after the four
writes; `none` is the panic of the slice expression or of the write. -/
def PutUint32 (buf : List Byte) (off : Nat) (v : U32) : Option (List Byte) :=
  match buf.drop off with
  | _ :: _ :: _ :: _ :: rest => some (buf.take off ++ (bytes32 v ++ rest))
  | _ => none

/-- Go `raw[i]`: `none` is the index-out-of-range panic. -/
def index (raw : List Byte) (i : Nat) : Option Byte := raw.get? i

/-- Go `buf[i] = x`: the buffer after the write; `none` is the index-out-of-range
panic. -/
def setIndex (buf : List Byte) (i : Nat) (x : Byte) : Option (List Byte) :=
  if i < buf.length then some (buf.set i x) else none

/-! ## Header -/

/-- The common header: the fields the two packet files use. -/
structure Header where
  Count : Byte
  PType : Byte
  Length : U16
  deriving DecidableEq

/-- Modelled from the spec: the constant `headerSize` of the header file, which
is not among the sources ("fixed header (4 bytes)"). -/
def headerSize : Nat := 4

/-- Modelled from the spec: the constant `ssrcLength`, not among the sources
(an SSRC is a 32-bit integer, "fixed header size + 8 bytes (two SSRCs)"). -/
def ssrcLength : Nat := 4

/-- Modelled from the spec: the packet type `TypePayloadSpecificFeedback`, not
among the sources; the spec names it without a number, the value is the PSFB
packet type of RFC 4585 / RFC 5104 section 3.5.1, which the source cites. -/
def TypePayloadSpecificFeedback : Byte := 206

/-- Modelled from the spec: the format `FormatPLI`, not among the sources; a
5-bit value (FMT 1 of RFC 4585). -/
def FormatPLI : Byte := 1

/-- Modelled from the spec: the format `FormatFIR`, not among the sources; a
5-bit value (FMT 4 of RFC 5104 section 3.5.1, which the source cites). -/
def FormatFIR : Byte := 4

/-- Modelled from the spec: `Header.MarshalTo` of the header file, which is not
among the sources.  "Writes the fixed header fields big-endian into the start of
the supplied buffer; fails if the buffer is smaller than the fixed header size."
Byte 0 carries the 5-bit count below the version/padding bits, which this core
treats as the constant 0; byte 1 is the packet type; bytes 2 and 3 are the
length. -/
def Header.MarshalTo (h : Header) (buf : List Byte) : Except Err (Nat × List Byte) :=
  if buf.length < headerSize then .error .errHeaderBuffer
  else .ok (headerSize, toByte (h.Count.val % 32) :: h.PType :: (bytes16 h.Length ++ buf.drop headerSize))

/-- Modelled from the spec: `Header.Unmarshal` of the header file, which is not
among the sources.  "Fails with PacketTooShort if fewer bytes than the fixed
header size are available; otherwise extracts version/padding, 5-bit count,
8-bit type, 16-bit length (big-endian).  Performs no further validation." -/
def Header.Unmarshal (raw : List Byte) : Except Err Header :=
  match raw with
  | a :: b :: c :: d :: _ => .ok { Count := toByte (a.val % 32), PType := b, Length := be16 c d }
  | _ => .error .errPacketTooShort

/-! ## PictureLossIndication -/

structure PictureLossIndication where
  SenderSSRC : U32
  MediaSSRC : U32
  deriving DecidableEq

def pliLength : U16 := 2

/-- Go `func (p PictureLossIndication) Header() Header`. -/
def PictureLossIndication.Header (_p : PictureLossIndication) : Rtcp.Header :=
  { Count := FormatPLI, PType := TypePayloadSpecificFeedback, Length := pliLength }

/-- Go `func (p PictureLossIndication) MarshalSize() int`. -/
def PictureLossIndication.MarshalSize (_p : PictureLossIndication) : Nat :=
  headerSize + ssrcLength * 2

/-- Go `func (p PictureLossIndication) MarshalTo(buf []byte) (int, error)`: the byte
count and the buffer after the call. -/
def PictureLossIndication.MarshalTo (p : PictureLossIndication) (buf : List Byte) :
    Except Fault (Nat × List Byte) :=
  match Rtcp.Header.MarshalTo p.Header buf with
  | .error e => .error (.error e)
  | .ok (_, buf) =>
    -- packetBody := buf[headerSize:]
    match PutUint32 buf headerSize p.SenderSSRC with
    | none => .error .panic
    | some buf =>
      match PutUint32 buf (headerSize + 4) p.MediaSSRC with
      | none => .error .panic
      | some buf => .ok (headerSize + ssrcLength * 2, buf)

/-- Go `func (p PictureLossIndication) Marshal() ([]byte, error)`. -/
def PictureLossIndication.Marshal (p : PictureLossIndication) : Except Fault (List Byte) :=
  match p.MarshalTo (List.replicate p.MarshalSize 0) with
  | .error e => .error e
  | .ok (_, buf) => .ok buf

/-- Go `func (p *PictureLossIndication) Unmarshal(rawPacket []byte) error`: the
receiver after the call and the outcome (`none` is a `nil` error). -/
def PictureLossIndication.Unmarshal (p : PictureLossIndication) (rawPacket : List Byte) :
    PictureLossIndication × Option Fault :=
  if rawPacket.length < headerSize + ssrcLength * 2 then (p, some (.error .errPacketTooShort))
  else
    match Rtcp.Header.Unmarshal rawPacket with
    | .error e => (p, some (.error e))
    | .ok h =>
      if h.PType ≠ TypePayloadSpecificFeedback ∨ h.Count ≠ FormatPLI then
        (p, some (.error .errWrongType))
      else
        match Uint32 rawPacket headerSize with
        | none => (p, some .panic)
        | some s =>
          let p := { p with SenderSSRC := s }
          match Uint32 rawPacket (headerSize + ssrcLength) with
          | none => (p, some .panic)
          | some m => ({ p with MediaSSRC := m }, none)

/-- Go `func (p *PictureLossIndication) DestinationSSRC() []uint32`. -/
def PictureLossIndication.DestinationSSRC (p : PictureLossIndication) : List U32 :=
  [p.MediaSSRC]

/-! ## FullIntraRequest -/

structure FIREntry where
  SSRC : U32
  SequenceNumber : Byte
  deriving DecidableEq

structure FullIntraRequest where
  SenderSSRC : U32
  MediaSSRC : U32
  FIR : List FIREntry
  deriving DecidableEq

def firOffset : Nat := headerSize + 8

/-- Go `func (p FullIntraRequest) MarshalSize() int`. -/
def FullIntraRequest.MarshalSize (p : FullIntraRequest) : Nat :=
  firOffset + p.FIR.length * 8

/-- Go `func (p *FullIntraRequest) Header() Header`; the length is
`uint16((p.MarshalSize() / 4) - 1)`. -/
def FullIntraRequest.Header (p : FullIntraRequest) : Rtcp.Header :=
  { Count := FormatFIR
    PType := TypePayloadSpecificFeedback
    Length := toU16 ((p.MarshalSize / 4) - 1) }

/-- The loop `for i, fir := range p.FIR` of `MarshalTo`, from index `i` on: the
buffer after the writes, `none` for a panic. -/
def FullIntraRequest.marshalLoop : List FIREntry → Nat → List Byte → Option (List Byte)
  | [], _, buf => some buf
  | fir :: rest, i, buf =>
    match PutUint32 buf (firOffset + 8 * i) fir.SSRC with
    | none => none
    | some buf =>
      match setIndex buf (firOffset + 8 * i + 4) fir.SequenceNumber with
      | none => none
      | some buf => FullIntraRequest.marshalLoop rest (i + 1) buf

/-- Go `func (p FullIntraRequest) MarshalTo(buf []byte) (int, error)`: the byte
count and the buffer after the call. -/
def FullIntraRequest.MarshalTo (p : FullIntraRequest) (buf : List Byte) :
    Except Fault (Nat × List Byte) :=
  match Rtcp.Header.MarshalTo p.Header buf with
  | .error e => .error (.error e)
  | .ok (_, buf) =>
    match PutUint32 buf headerSize p.SenderSSRC with
    | none => .error .panic
    | some buf =>
      match PutUint32 buf (headerSize + 4) p.MediaSSRC with
      | none => .error .panic
      | some buf =>
        match FullIntraRequest.marshalLoop p.FIR 0 buf with
        | none => .error .panic
        | some buf => .ok (firOffset + p.FIR.length * 8, buf)

/-- Go `func (p FullIntraRequest) Marshal() ([]byte, error)`. -/
def FullIntraRequest.Marshal (p : FullIntraRequest) : Except Fault (List Byte) :=
  match p.MarshalTo (List.replicate p.MarshalSize 0) with
  | .error e => .error e
  | .ok (_, buf) => .ok buf

/-- The loop `for i := firOffset; i < stop; i += 8` of `Unmarshal`, entered with
loop variable `i` and receiver `p`; the first argument bounds the number of
condition checks. -/
def FullIntraRequest.unmarshalLoop (rawPacket : List Byte) (stop : Nat) :
    Nat → Nat → FullIntraRequest → FullIntraRequest × Option Fault
  | 0, _, p => (p, some .fuel)
  | fuel + 1, i, p =>
    if i < stop then
      match Uint32 rawPacket i with
      | none => (p, some .panic)
      | some ssrc =>
        match index rawPacket (i + 4) with
        | none => (p, some .panic)
        | some seq =>
          FullIntraRequest.unmarshalLoop rawPacket stop fuel (i + 8)
            { p with FIR := p.FIR ++ [⟨ssrc, seq⟩] }
    else (p, none)

/-- Go `func (p *FullIntraRequest) Unmarshal(rawPacket []byte) error`: the receiver
after the call and the outcome (`none` is a `nil` error).  `4*h.Length` and
`h.Length*4` are `uint16` products, hence the `% 65536`. -/
def FullIntraRequest.Unmarshal (p : FullIntraRequest) (rawPacket : List Byte) :
    FullIntraRequest × Option Fault :=
  if rawPacket.length < headerSize + ssrcLength then (p, some (.error .errPacketTooShort))
  else
    match Rtcp.Header.Unmarshal rawPacket with
    | .error e => (p, some (.error e))
    | .ok h =>
      if rawPacket.length < headerSize + (4 * h.Length.val) % 65536 then
        (p, some (.error .errPacketTooShort))
      else if h.PType ≠ TypePayloadSpecificFeedback ∨ h.Count ≠ FormatFIR then
        (p, some (.error .errWrongType))
      else
        match Uint32 rawPacket headerSize with
        | none => (p, some .panic)
        | some s =>
          let p := { p with SenderSSRC := s }
          match Uint32 rawPacket (headerSize + ssrcLength) with
          | none => (p, some .panic)
          | some m =>
            let p := { p with MediaSSRC := m }
            let stop := headerSize + (h.Length.val * 4) % 65536
            FullIntraRequest.unmarshalLoop rawPacket stop stop firOffset p

/-- Go `func (p *FullIntraRequest) DestinationSSRC() []uint32`. -/
def FullIntraRequest.DestinationSSRC (p : FullIntraRequest) : List U32 :=
  p.FIR.foldl (fun ssrcs entry => ssrcs ++ [entry.SSRC]) []

/-- The zero value `FullIntraRequest{}`. -/
def FullIntraRequest.zero : FullIntraRequest := ⟨0, 0, []⟩

/-! ## Wire layout (used to state the theorems) -/

/-- The four header bytes that `Header.MarshalTo` stores. -/
def Header.bytes (h : Header) : List Byte :=
  toByte (h.Count.val % 32) :: h.PType :: bytes16 h.Length

/-- One FIR record on the wire over the three reserved bytes `r1 r2 r3`. -/
def FIREntry.record (e : FIREntry) (r1 r2 r3 : Byte) : List Byte :=
  bytes32 e.SSRC ++ [e.SequenceNumber, r1, r2, r3]

/-- The body region after the entries have been written over it: in each 8-byte
stride the first five bytes are the entry, the last three are kept. -/
def overlay : List FIREntry → List Byte → List Byte
  | e :: es, _ :: _ :: _ :: _ :: _ :: r1 :: r2 :: r3 :: body =>
    e.record r1 r2 r3 ++ overlay es body
  | _, body => body

/-- The entries written with zero reserved bytes. -/
def records (es : List FIREntry) : List Byte :=
  es.flatMap (fun e => e.record 0 0 0)

/-- The big-endian value of the four bytes at offsets `off .. off+3` of a slice
(a missing byte counts as 0; the theorems use it in bounds only). -/
def wire32 (raw : List Byte) (off : Nat) : U32 :=
  be32 (raw.getD off 0) (raw.getD (off + 1) 0) (raw.getD (off + 2) 0) (raw.getD (off + 3) 0)

/-- The entry read from the 8-byte stride at offset `off`: SSRC from the first
four bytes, sequence number from the fifth; the last three are not looked at. -/
def wireEntry (raw : List Byte) (off : Nat) : FIREntry :=
  ⟨wire32 raw off, raw.getD (off + 4) 0⟩

/-! ## Byte-order lemmas -/

theorem be32_bytes32 (v : U32) :
    be32 (toByte (v.val / 16777216)) (toByte (v.val / 65536)) (toByte (v.val / 256))
      (toByte v.val) = v := by
  apply Fin.ext
  have := v.isLt
  simp only [be32, toByte]
  omega

theorem be16_bytes16 (v : U16) : be16 (toByte (v.val / 256)) (toByte v.val) = v := by
  apply Fin.ext
  have := v.isLt
  simp only [be16, toByte]
  omega

theorem bytes32_be32 (a b c d : Byte) : bytes32 (be32 a b c d) = [a, b, c, d] := by
  have := a.isLt; have := b.isLt; have := c.isLt; have := d.isLt
  simp only [bytes32, be32, toByte]
  refine congrArg₂ _ (Fin.ext ?_) (congrArg₂ _ (Fin.ext ?_) (congrArg₂ _ (Fin.ext ?_)
    (congrArg₂ _ (Fin.ext ?_) rfl))) <;> simp only <;> omega

theorem bytes32_length (v : U32) : (bytes32 v).length = 4 := rfl

/-! ## Slice lemmas -/

theorem Uint32_at (pre : List Byte) (a b c d : Byte) (rest : List Byte) (off : Nat)
    (h : off = pre.length) : Uint32 (pre ++ a :: b :: c :: d :: rest) off = some (be32 a b c d) := by
  subst h
  simp [Uint32]

theorem PutUint32_at (pre : List Byte) (a b c d : Byte) (rest : List Byte) (off : Nat) (v : U32)
    (h : off = pre.length) :
    PutUint32 (pre ++ a :: b :: c :: d :: rest) off v = some (pre ++ (bytes32 v ++ rest)) := by
  subst h
  simp [PutUint32]

theorem index_at (pre : List Byte) (a : Byte) (rest : List Byte) (i : Nat)
    (h : i = pre.length) : index (pre ++ a :: rest) i = some a := by
  subst h
  induction pre with
  | nil => rfl
  | cons x xs ih => simpa [index] using ih

theorem setIndex_at (pre : List Byte) (a : Byte) (rest : List Byte) (i : Nat) (x : Byte)
    (h : i = pre.length) : setIndex (pre ++ a :: rest) i x = some (pre ++ x :: rest) := by
  subst h
  simp [setIndex]

theorem Uint32_short (raw : List Byte) (off : Nat) (h : raw.length < off + 4) :
    Uint32 raw off = none := by
  unfold Uint32
  have hl : (raw.drop off).length < 4 := by rw [List.length_drop]; omega
  match hd : raw.drop off with
  | [] => rfl
  | [_] => rfl
  | [_, _] => rfl
  | [_, _, _] => rfl
  | _ :: _ :: _ :: _ :: _ => rw [hd] at hl; simp at hl; omega

theorem exists_eight (l : List Byte) (h : 8 ≤ l.length) :
    ∃ a b c d e f g k t, l = a :: b :: c :: d :: e :: f :: g :: k :: t := by
  match l, h with
  | a :: b :: c :: d :: e :: f :: g :: k :: t, _ => exact ⟨a, b, c, d, e, f, g, k, t, rfl⟩

theorem exists_four (l : List Byte) (h : 4 ≤ l.length) :
    ∃ a b c d t, l = a :: b :: c :: d :: t := by
  match l, h with
  | a :: b :: c :: d :: t, _ => exact ⟨a, b, c, d, t, rfl⟩

/-! ## The marshal loop -/

theorem overlay_nil (body : List Byte) : overlay [] body = body := by
  unfold overlay
  rfl

theorem overlay_cons (e : FIREntry) (es : List FIREntry) (a b c d s r1 r2 r3 : Byte)
    (body : List Byte) :
    overlay (e :: es) (a :: b :: c :: d :: s :: r1 :: r2 :: r3 :: body) =
      e.record r1 r2 r3 ++ overlay es body := by
  rw [overlay]

theorem marshalLoop_overlay (es : List FIREntry) :
    ∀ (i : Nat) (pre body : List Byte), firOffset + 8 * i = pre.length →
      8 * es.length ≤ body.length →
      FullIntraRequest.marshalLoop es i (pre ++ body) = some (pre ++ overlay es body) := by
  induction es with
  | nil =>
    intro i pre body _ _
    rw [overlay_nil]
    rfl
  | cons e es ih =>
    intro i pre body hpre hbody
    obtain ⟨a, b, c, d, s, r1, r2, r3, t, rfl⟩ := exists_eight body (by simp at hbody; omega)
    rw [overlay_cons]
    unfold FullIntraRequest.marshalLoop
    rw [PutUint32_at pre a b c d _ _ _ hpre]
    have h4 : firOffset + 8 * i + 4 = (pre ++ bytes32 e.SSRC).length := by
      rw [List.length_append, bytes32_length]; omega
    have hset := setIndex_at (pre ++ bytes32 e.SSRC) s (r1 :: r2 :: r3 :: t) _ e.SequenceNumber h4
    rw [List.append_assoc] at hset
    simp only [hset]
    have h8 : firOffset + 8 * (i + 1) = (pre ++ e.record r1 r2 r3).length := by
      simp only [FIREntry.record, List.length_append, bytes32_length, List.length_cons,
        List.length_nil]
      omega
    have hrec := ih (i + 1) (pre ++ e.record r1 r2 r3) t h8 (by simp at hbody; omega)
    simp only [FIREntry.record, List.append_assoc, List.cons_append, List.nil_append] at hrec ⊢
    exact hrec

theorem overlay_zeros (es : List FIREntry) (tail : List Byte) :
    overlay es (List.replicate (es.length * 8) 0 ++ tail) = records es ++ overlay [] tail := by
  induction es with
  | nil => simp [overlay_nil, records]
  | cons e es ih =>
    have h : (e :: es).length * 8 = es.length * 8 + 8 := by simp; omega
    rw [h]
    simp only [List.replicate_succ, List.cons_append]
    rw [overlay_cons, ih]
    simp [records, List.flatMap_cons]

/-! ## The unmarshal loop -/

theorem unmarshalLoop_overlay (es : List FIREntry) :
    ∀ (pre body : List Byte) (stop fuel i : Nat) (p : FullIntraRequest),
      i = pre.length → stop = pre.length + 8 * es.length → es.length < fuel →
      8 * es.length ≤ body.length →
      FullIntraRequest.unmarshalLoop (pre ++ overlay es body) stop fuel i p =
        ({ p with FIR := p.FIR ++ es }, none) := by
  induction es with
  | nil =>
    intro pre body stop fuel i p hi hstop hfuel _
    obtain ⟨f, rfl⟩ : ∃ f, fuel = f + 1 := ⟨fuel - 1, by simp at hfuel; omega⟩
    unfold FullIntraRequest.unmarshalLoop
    simp at hstop
    simp [hi, hstop]
  | cons e es ih =>
    intro pre body stop fuel i p hi hstop hfuel hbody
    obtain ⟨f, rfl⟩ : ∃ f, fuel = f + 1 := ⟨fuel - 1, by simp at hfuel; omega⟩
    obtain ⟨a, b, c, d, s, r1, r2, r3, t, rfl⟩ := exists_eight body (by simp at hbody; omega)
    rw [overlay_cons]
    unfold FullIntraRequest.unmarshalLoop
    have hlt : i < stop := by simp at hstop; omega
    have hU : Uint32 (pre ++ (e.record r1 r2 r3 ++ overlay es t)) i = some e.SSRC := by
      have := Uint32_at pre (toByte (e.SSRC.val / 16777216)) (toByte (e.SSRC.val / 65536))
        (toByte (e.SSRC.val / 256)) (toByte e.SSRC.val)
        (e.SequenceNumber :: r1 :: r2 :: r3 :: overlay es t) i hi
      rw [be32_bytes32] at this
      simpa [FIREntry.record, bytes32] using this
    have hI : index (pre ++ (e.record r1 r2 r3 ++ overlay es t)) (i + 4) = some e.SequenceNumber := by
      have := index_at (pre ++ bytes32 e.SSRC) e.SequenceNumber (r1 :: r2 :: r3 :: overlay es t)
        (i + 4) (by rw [List.length_append, bytes32_length]; omega)
      simpa [FIREntry.record, List.append_assoc] using this
    simp only [hlt, if_true, hU, hI]
    have h8 : i + 8 = (pre ++ e.record r1 r2 r3).length := by
      simp only [FIREntry.record, List.length_append, bytes32_length, List.length_cons,
        List.length_nil]
      omega
    have hrec := ih (pre ++ e.record r1 r2 r3) t stop f (i + 8)
      { p with FIR := p.FIR ++ [e] } h8
      (by rw [← h8]; simp at hstop; omega) (by simp at hfuel; omega) (by simp at hbody; omega)
    rw [List.append_assoc] at hrec
    rw [hrec]
    simp

/-! ## Layout of the marshalled packets -/

theorem header_bytes_length (h : Header) : h.bytes.length = 4 := rfl

theorem header_marshalTo_bytes (h : Header) (a0 a1 a2 a3 : Byte) (rest : List Byte) :
    Header.MarshalTo h (a0 :: a1 :: a2 :: a3 :: rest) = .ok (headerSize, h.bytes ++ rest) := by
  simp [Header.MarshalTo, headerSize, Header.bytes, bytes16]

theorem header_unmarshal_bytes (h : Header) (rest : List Byte) (hc : h.Count.val < 32) :
    Header.Unmarshal (h.bytes ++ rest) = .ok h := by
  obtain ⟨c, t, l⟩ := h
  have e1 : toByte ((toByte (c.val % 32)).val % 32) = c := by
    apply Fin.ext
    simp only [toByte] at hc ⊢
    omega
  simp only [Header.bytes, bytes16, List.cons_append, Header.Unmarshal, e1, be16_bytes16,
    List.nil_append]

theorem fir_marshalTo_layout (p : FullIntraRequest) (buf : List Byte)
    (h : p.MarshalSize ≤ buf.length) :
    p.MarshalTo buf = .ok (p.MarshalSize,
      p.Header.bytes ++ (bytes32 p.SenderSSRC ++ (bytes32 p.MediaSSRC ++
        overlay p.FIR (buf.drop firOffset)))) := by
  have hsz : p.MarshalSize = 12 + p.FIR.length * 8 := rfl
  obtain ⟨a0, a1, a2, a3, t, rfl⟩ := exists_four buf (by omega)
  obtain ⟨b0, b1, b2, b3, b4, b5, b6, b7, body, rfl⟩ :=
    exists_eight t (by simp only [List.length_cons] at h; omega)
  have hH := header_marshalTo_bytes p.Header a0 a1 a2 a3
    (b0 :: b1 :: b2 :: b3 :: b4 :: b5 :: b6 :: b7 :: body)
  have h1 := PutUint32_at p.Header.bytes b0 b1 b2 b3 (b4 :: b5 :: b6 :: b7 :: body) headerSize
    p.SenderSSRC rfl
  have h2 := PutUint32_at (p.Header.bytes ++ bytes32 p.SenderSSRC) b4 b5 b6 b7 body
    (headerSize + 4) p.MediaSSRC rfl
  have h3 := marshalLoop_overlay p.FIR 0
    (p.Header.bytes ++ bytes32 p.SenderSSRC ++ bytes32 p.MediaSSRC) body rfl
    (by simp only [List.length_cons] at h; omega)
  simp only [List.append_assoc] at h2 h3
  unfold FullIntraRequest.MarshalTo
  simp only [hH, h1, h2, h3]
  simp [FullIntraRequest.MarshalSize, firOffset, headerSize]

theorem overlay_zeros_nil (es : List FIREntry) :
    overlay es (List.replicate (es.length * 8) 0) = records es := by
  have := overlay_zeros es []
  simpa [overlay_nil] using this

theorem fir_marshal_layout (p : FullIntraRequest) :
    p.Marshal = .ok (p.Header.bytes ++ (bytes32 p.SenderSSRC ++ (bytes32 p.MediaSSRC ++
      records p.FIR))) := by
  unfold FullIntraRequest.Marshal
  rw [fir_marshalTo_layout p _ (by simp)]
  have : List.drop firOffset (List.replicate p.MarshalSize (0 : Byte)) =
      List.replicate (p.FIR.length * 8) 0 := by
    simp [FullIntraRequest.MarshalSize]
  simp only [this, overlay_zeros_nil]

theorem records_length (es : List FIREntry) : (records es).length = es.length * 8 := by
  induction es with
  | nil => rfl
  | cons e es ih =>
    simp only [records, List.flatMap_cons, List.length_append] at ih ⊢
    rw [ih]
    simp [FIREntry.record, bytes32]
    omega

theorem pli_marshalTo_layout (p : PictureLossIndication) (buf : List Byte)
    (h : p.MarshalSize ≤ buf.length) :
    p.MarshalTo buf = .ok (p.MarshalSize,
      p.Header.bytes ++ (bytes32 p.SenderSSRC ++ (bytes32 p.MediaSSRC ++ buf.drop 12))) := by
  have hsz : p.MarshalSize = 12 := rfl
  obtain ⟨a0, a1, a2, a3, t, rfl⟩ := exists_four buf (by omega)
  obtain ⟨b0, b1, b2, b3, b4, b5, b6, b7, body, rfl⟩ :=
    exists_eight t (by simp only [List.length_cons] at h; omega)
  have hH := header_marshalTo_bytes p.Header a0 a1 a2 a3
    (b0 :: b1 :: b2 :: b3 :: b4 :: b5 :: b6 :: b7 :: body)
  have h1 := PutUint32_at p.Header.bytes b0 b1 b2 b3 (b4 :: b5 :: b6 :: b7 :: body) headerSize
    p.SenderSSRC rfl
  have h2 := PutUint32_at (p.Header.bytes ++ bytes32 p.SenderSSRC) b4 b5 b6 b7 body
    (headerSize + 4) p.MediaSSRC rfl
  simp only [List.append_assoc] at h2
  unfold PictureLossIndication.MarshalTo
  simp only [hH, h1, h2]
  simp [PictureLossIndication.MarshalSize]

theorem pli_marshal_layout (p : PictureLossIndication) :
    p.Marshal = .ok (p.Header.bytes ++ (bytes32 p.SenderSSRC ++ bytes32 p.MediaSSRC)) := rfl

/-! ## Unmarshal on a marshalled prefix -/

theorem Uint32_bytes32 (pre : List Byte) (v : U32) (rest : List Byte) (off : Nat)
    (h : off = pre.length) : Uint32 (pre ++ (bytes32 v ++ rest)) off = some v := by
  have := Uint32_at pre (toByte (v.val / 16777216)) (toByte (v.val / 65536))
    (toByte (v.val / 256)) (toByte v.val) rest off h
  rw [be32_bytes32] at this
  simpa [bytes32] using this

/-- On a slice that starts with a FIR header and two SSRCs, `Unmarshal` is the
declared-length check followed by the entry loop. -/
theorem fir_unmarshal_body (q : FullIntraRequest) (h : Rtcp.Header) (S M : U32)
    (rest : List Byte) (ht : h.PType = TypePayloadSpecificFeedback) (hc : h.Count = FormatFIR) :
    FullIntraRequest.Unmarshal q (h.bytes ++ (bytes32 S ++ (bytes32 M ++ rest))) =
      if (h.bytes ++ (bytes32 S ++ (bytes32 M ++ rest))).length <
          headerSize + (4 * h.Length.val) % 65536 then
        (q, some (.error .errPacketTooShort))
      else
        FullIntraRequest.unmarshalLoop (h.bytes ++ (bytes32 S ++ (bytes32 M ++ rest)))
          (headerSize + (h.Length.val * 4) % 65536) (headerSize + (h.Length.val * 4) % 65536)
          firOffset ⟨S, M, q.FIR⟩ := by
  have hU := header_unmarshal_bytes h (bytes32 S ++ (bytes32 M ++ rest))
    (by rw [hc]; decide)
  have h1 := Uint32_bytes32 h.bytes S (bytes32 M ++ rest) headerSize rfl
  have h2 := Uint32_bytes32 (h.bytes ++ bytes32 S) M rest (headerSize + ssrcLength) rfl
  rw [List.append_assoc] at h2
  have hlen : ¬ (h.bytes ++ (bytes32 S ++ (bytes32 M ++ rest))).length <
      headerSize + ssrcLength := by
    simp only [List.length_append, header_bytes_length, bytes32_length, headerSize, ssrcLength]
    omega
  unfold FullIntraRequest.Unmarshal
  simp only [hlen, if_false, hU, h1, h2, ht, hc, ne_eq, not_true_eq_false, or_self]

/-- Round trip below the `uint16` wrap of `4*h.Length`: with at most 8190
entries `Unmarshal` gives back the marshalled packet. -/
theorem fir_roundtrip_of_le (p : FullIntraRequest) (hn : p.FIR.length ≤ 8190) :
    ∃ b, p.Marshal = .ok b ∧
      FullIntraRequest.Unmarshal FullIntraRequest.zero b = (p, none) := by
  refine ⟨_, fir_marshal_layout p, ?_⟩
  rw [fir_unmarshal_body _ _ _ _ _ rfl rfl]
  have hL : p.Header.Length.val = 2 + 2 * p.FIR.length := by
    simp only [FullIntraRequest.Header, FullIntraRequest.MarshalSize, toU16, firOffset,
      headerSize]
    omega
  have hlen : (p.Header.bytes ++ (bytes32 p.SenderSSRC ++ (bytes32 p.MediaSSRC ++
      records p.FIR))).length = 12 + 8 * p.FIR.length := by
    simp only [List.length_append, header_bytes_length, bytes32_length, records_length]
    omega
  have hstop : headerSize + (p.Header.Length.val * 4) % 65536 = 12 + 8 * p.FIR.length := by
    rw [hL]; simp only [headerSize]; omega
  have hchk : ¬ (12 + 8 * p.FIR.length < headerSize + (4 * p.Header.Length.val) % 65536) := by
    rw [hL]; simp only [headerSize]; omega
  rw [hlen, if_neg hchk, hstop]
  have hloop := unmarshalLoop_overlay p.FIR
    (p.Header.bytes ++ bytes32 p.SenderSSRC ++ bytes32 p.MediaSSRC)
    (List.replicate (p.FIR.length * 8) 0) (12 + 8 * p.FIR.length) (12 + 8 * p.FIR.length)
    firOffset ⟨p.SenderSSRC, p.MediaSSRC, []⟩ rfl
    (by simp only [List.length_append, header_bytes_length, bytes32_length])
    (by omega) (by simp; omega)
  rw [overlay_zeros_nil, List.append_assoc, List.append_assoc] at hloop
  simp only [FullIntraRequest.zero]
  rw [hloop]
  simp

/-- At 8191 entries the header length is 16384, `4*h.Length` wraps to 0 and the
entry loop does not run: `Unmarshal` succeeds with no entries. -/
theorem fir_roundtrip_wrap (p : FullIntraRequest) (hn : p.FIR.length = 8191) :
    ∃ b, p.Marshal = .ok b ∧ b.length = 65540 ∧
      FullIntraRequest.Unmarshal FullIntraRequest.zero b =
        (⟨p.SenderSSRC, p.MediaSSRC, []⟩, none) := by
  have hlen : (p.Header.bytes ++ (bytes32 p.SenderSSRC ++ (bytes32 p.MediaSSRC ++
      records p.FIR))).length = 65540 := by
    simp only [List.length_append, header_bytes_length, bytes32_length, records_length, hn]
  refine ⟨_, fir_marshal_layout p, hlen, ?_⟩
  rw [fir_unmarshal_body _ _ _ _ _ rfl rfl]
  have hL : p.Header.Length.val = 16384 := by
    simp only [FullIntraRequest.Header, FullIntraRequest.MarshalSize, toU16, firOffset,
      headerSize, hn]
  rw [hlen, hL]
  rfl

/-- On a slice that starts with a PLI header and two SSRCs, `Unmarshal` returns
nil and stores the two SSRCs. -/
theorem pli_unmarshal_body (q : PictureLossIndication) (h : Rtcp.Header)
    (S M : U32) (rest : List Byte) (ht : h.PType = TypePayloadSpecificFeedback)
    (hc : h.Count = FormatPLI) :
    PictureLossIndication.Unmarshal q (h.bytes ++ (bytes32 S ++ (bytes32 M ++ rest))) =
      (⟨S, M⟩, none) := by
  have hU := header_unmarshal_bytes h (bytes32 S ++ (bytes32 M ++ rest))
    (by rw [hc]; decide)
  have h1 := Uint32_bytes32 h.bytes S (bytes32 M ++ rest) headerSize rfl
  have h2 := Uint32_bytes32 (h.bytes ++ bytes32 S) M rest (headerSize + ssrcLength) rfl
  rw [List.append_assoc] at h2
  have hlen : ¬ (h.bytes ++ (bytes32 S ++ (bytes32 M ++ rest))).length <
      headerSize + ssrcLength * 2 := by
    simp only [List.length_append, header_bytes_length, bytes32_length, headerSize, ssrcLength]
    omega
  unfold PictureLossIndication.Unmarshal
  simp only [hlen, if_false, hU, h1, h2, ht, hc, ne_eq, not_true_eq_false, or_self]

theorem records_stride (es : List FIREntry) :
    ∀ (i : Nat) (hi : i < es.length),
      ((records es).drop (8 * i)).take 8 =
        bytes32 (es.get ⟨i, hi⟩).SSRC ++ [(es.get ⟨i, hi⟩).SequenceNumber, 0, 0, 0] := by
  induction es with
  | nil => intro i hi; simp at hi
  | cons e es ih =>
    intro i hi
    have hr : records (e :: es) = e.record 0 0 0 ++ records es := by
      simp [records, List.flatMap_cons]
    have hl : (e.record 0 0 0).length = 8 := rfl
    cases i with
    | zero =>
      rw [hr]
      simp only [Nat.mul_zero, List.drop_zero]
      rw [List.take_append_of_le_length (by rw [hl])]
      rw [List.take_of_length_le (by rw [hl])]
      rfl
    | succ j =>
      rw [hr]
      have h8 : 8 * (j + 1) = (e.record 0 0 0).length + 8 * j := by rw [hl]; omega
      rw [h8, List.drop_append]
      simpa using ih j (by simpa using hi)

/-- When the declared packet fits in the slice and the header is not a FIR
header, `Unmarshal` returns `errWrongType` and does not touch the receiver. -/
theorem fir_unmarshal_wrongType (q : FullIntraRequest) (raw : List Byte)
    (h : Rtcp.Header) (hlen : 12 ≤ raw.length) (hh : Header.Unmarshal raw = .ok h)
    (hfit : headerSize + 4 * h.Length.val ≤ raw.length)
    (hty : h.PType ≠ TypePayloadSpecificFeedback ∨ h.Count ≠ FormatFIR) :
    FullIntraRequest.Unmarshal q raw = (q, some (.error .errWrongType)) := by
  have h1 : ¬ raw.length < headerSize + ssrcLength := by
    simp only [headerSize, ssrcLength]; omega
  have h2 : ¬ raw.length < headerSize + (4 * h.Length.val) % 65536 := by
    have := Nat.mod_le (4 * h.Length.val) 65536
    omega
  unfold FullIntraRequest.Unmarshal
  simp only [h1, if_false, hh, h2, hty, if_true]

/-! ## The loop budget is never exhausted -/

theorem unmarshalLoop_budget (raw : List Byte) (stop : Nat) :
    ∀ (fuel i : Nat) (p : FullIntraRequest), 1 ≤ fuel → stop + 8 ≤ i + 8 * fuel →
      (FullIntraRequest.unmarshalLoop raw stop fuel i p).2 ≠ some .fuel := by
  intro fuel
  induction fuel with
  | zero => intro i p h; omega
  | succ f ih =>
    intro i p _ hb
    unfold FullIntraRequest.unmarshalLoop
    by_cases hlt : i < stop
    · simp only [hlt, if_true]
      cases Uint32 raw i with
      | none => simp
      | some ssrc =>
        cases index raw (i + 4) with
        | none => simp
        | some seq => exact ih (i + 8) _ (by omega) (by omega)
    · simp [hlt]

/-- `FullIntraRequest.Unmarshal` never ends with the budget of the embedding
exhausted: every outcome is `nil`, a Go error or a panic. -/
theorem fir_unmarshal_budget (q : FullIntraRequest) (raw : List Byte) :
    (FullIntraRequest.Unmarshal q raw).2 ≠ some .fuel := by
  unfold FullIntraRequest.Unmarshal
  split
  · simp
  · split
    · simp
    · split
      · simp
      · split
        · simp
        · split
          · simp
          · split
            · simp
            · exact unmarshalLoop_budget raw _ _ _ _ (by simp only [headerSize]; omega)
                (by simp only [headerSize, firOffset]; omega)

/-! ## Reads in bounds -/

theorem index_eq_getD (raw : List Byte) (i : Nat) (h : i < raw.length) :
    index raw i = some (raw.getD i 0) := by
  simp [index, List.getD, List.getElem?_eq_getElem h]

theorem index_none (raw : List Byte) (i : Nat) (h : raw.length ≤ i) : index raw i = none := by
  simp [index, h]

theorem Uint32_eq_wire32 (raw : List Byte) (off : Nat) (h : off + 4 ≤ raw.length) :
    Uint32 raw off = some (wire32 raw off) := by
  obtain ⟨a, b, c, d, t, hd⟩ := exists_four (raw.drop off) (by rw [List.length_drop]; omega)
  have g : ∀ j, raw.getD (off + j) 0 = (raw.drop off).getD j 0 := by
    intro j
    simp [List.getD, List.getElem?_drop]
  have g0 := g 0
  have g1 := g 1
  have g2 := g 2
  have g3 := g 3
  rw [hd] at g0 g1 g2 g3
  simp only [Nat.add_zero] at g0
  simp only [Uint32, hd, wire32, g0, g1, g2, g3]
  rfl

/-! ## The unmarshal loop on an arbitrary slice -/

theorem unmarshalLoop_no_error (raw : List Byte) (stop : Nat) (e : Err) :
    ∀ (fuel i : Nat) (p : FullIntraRequest),
      (FullIntraRequest.unmarshalLoop raw stop fuel i p).2 ≠ some (.error e) := by
  intro fuel
  induction fuel with
  | zero => intro i p; simp [FullIntraRequest.unmarshalLoop]
  | succ f ih =>
    intro i p
    unfold FullIntraRequest.unmarshalLoop
    by_cases hlt : i < stop
    · simp only [hlt, if_true]
      cases Uint32 raw i with
      | none => simp
      | some ssrc =>
        cases index raw (i + 4) with
        | none => simp
        | some seq => exact ih (i + 8) _
    · simp [hlt]

/-- The loop only appends: run from any receiver it gives the entries of the run
from an empty receiver after the entries already held, keeps both SSRCs, and
ends the same way. -/
theorem unmarshalLoop_receiver (raw : List Byte) (stop : Nat) :
    ∀ (fuel i : Nat) (p : FullIntraRequest),
      FullIntraRequest.unmarshalLoop raw stop fuel i p =
        (⟨p.SenderSSRC, p.MediaSSRC,
            p.FIR ++ (FullIntraRequest.unmarshalLoop raw stop fuel i ⟨0, 0, []⟩).1.FIR⟩,
          (FullIntraRequest.unmarshalLoop raw stop fuel i ⟨0, 0, []⟩).2) := by
  intro fuel
  induction fuel with
  | zero => intro i p; simp [FullIntraRequest.unmarshalLoop]
  | succ f ih =>
    intro i p
    unfold FullIntraRequest.unmarshalLoop
    by_cases hlt : i < stop
    · simp only [hlt, if_true]
      cases Uint32 raw i with
      | none => simp
      | some ssrc =>
        cases index raw (i + 4) with
        | none => simp
        | some seq =>
          have e1 := ih (i + 8)
            ⟨p.SenderSSRC, p.MediaSSRC, p.FIR ++ [(⟨ssrc, seq⟩ : FIREntry)]⟩
          have e2 := ih (i + 8) ⟨0, 0, [] ++ [(⟨ssrc, seq⟩ : FIREntry)]⟩
          simp only [] at e1 e2 ⊢
          rw [e1, e2]
          simp
    · simp [hlt]

/-- With the stop offset `i + 8 * n` inside the slice and budget left, the loop
returns nil after appending the `n` entries of the strides at `i`, `i + 8`, ... -/
theorem unmarshalLoop_entries (raw : List Byte) (stop : Nat) :
    ∀ (n fuel i : Nat) (p : FullIntraRequest), stop = i + 8 * n → stop ≤ raw.length →
      n < fuel →
      FullIntraRequest.unmarshalLoop raw stop fuel i p =
        ({ p with FIR := p.FIR ++ (List.range n).map (fun k => wireEntry raw (i + 8 * k)) },
          none) := by
  intro n
  induction n with
  | zero =>
    intro fuel i p hstop _ hfuel
    obtain ⟨f, rfl⟩ : ∃ f, fuel = f + 1 := ⟨fuel - 1, by omega⟩
    unfold FullIntraRequest.unmarshalLoop
    have : ¬ i < stop := by omega
    simp [this]
  | succ m ih =>
    intro fuel i p hstop hlen hfuel
    obtain ⟨f, rfl⟩ : ∃ f, fuel = f + 1 := ⟨fuel - 1, by omega⟩
    unfold FullIntraRequest.unmarshalLoop
    have hlt : i < stop := by omega
    have hU := Uint32_eq_wire32 raw i (by omega)
    have hI := index_eq_getD raw (i + 4) (by omega)
    simp only [hlt, if_true, hU, hI]
    rw [ih f (i + 8) _ (by omega) hlen (by omega)]
    have hmap : (List.range (m + 1)).map (fun k => wireEntry raw (i + 8 * k)) =
        wireEntry raw i :: (List.range m).map (fun k => wireEntry raw (i + 8 + 8 * k)) := by
      rw [List.range_succ_eq_map, List.map_cons, List.map_map]
      refine congrArg₂ _ rfl (List.map_congr_left ?_)
      intro k _
      simp only [Function.comp, Nat.succ_eq_add_one]
      congr 1
      omega
    rw [hmap]
    simp [wireEntry]

/-! ## Longer slices -/

theorem Uint32_append (b t : List Byte) (off : Nat) (v : U32) (h : Uint32 b off = some v) :
    Uint32 (b ++ t) off = some v := by
  by_cases hl : off + 4 ≤ b.length
  · obtain ⟨a0, a1, a2, a3, r, hd⟩ := exists_four (b.drop off) (by rw [List.length_drop]; omega)
    have hd2 : (b ++ t).drop off = a0 :: a1 :: a2 :: a3 :: (r ++ t) := by
      rw [List.drop_append_of_le_length (by omega), hd]
      rfl
    simp only [Uint32, hd] at h
    simp only [Uint32, hd2]
    exact h
  · rw [Uint32_short b off (by omega)] at h
    exact absurd h (by simp)

theorem index_append (b t : List Byte) (i : Nat) (x : Byte) (h : index b i = some x) :
    index (b ++ t) i = some x := by
  by_cases hl : i < b.length
  · simp only [index, List.get?_eq_getElem?] at h ⊢
    rw [List.getElem?_append_left hl]
    exact h
  · rw [index_none b i (by omega)] at h
    exact absurd h (by simp)

theorem unmarshalLoop_append (b t : List Byte) (stop : Nat) :
    ∀ (fuel i : Nat) (p r : FullIntraRequest),
      FullIntraRequest.unmarshalLoop b stop fuel i p = (r, none) →
      FullIntraRequest.unmarshalLoop (b ++ t) stop fuel i p = (r, none) := by
  intro fuel
  induction fuel with
  | zero => intro i p r h; simp [FullIntraRequest.unmarshalLoop] at h
  | succ f ih =>
    intro i p r h
    unfold FullIntraRequest.unmarshalLoop at h ⊢
    by_cases hlt : i < stop
    · simp only [hlt, if_true] at h ⊢
      cases hU : Uint32 b i with
      | none => rw [hU] at h; simp at h
      | some ssrc =>
        rw [hU] at h
        cases hI : index b (i + 4) with
        | none => rw [hI] at h; simp at h
        | some seq =>
          rw [hI] at h
          rw [Uint32_append b t i ssrc hU, index_append b t (i + 4) seq hI]
          exact ih (i + 8) _ r h
    · simp only [hlt, if_false] at h ⊢
      exact h

/-! ## The guards of `FullIntraRequest.Unmarshal` -/

/-- Past the guards and the two SSRC reads, `Unmarshal` is the entry loop run on
the receiver with both SSRCs overwritten. -/
theorem fir_unmarshal_accept (q : FullIntraRequest) (raw : List Byte) (h : Rtcp.Header)
    (S M : U32) (hlen : ¬ raw.length < headerSize + ssrcLength)
    (hh : Header.Unmarshal raw = .ok h)
    (hfit : ¬ raw.length < headerSize + (4 * h.Length.val) % 65536)
    (ht : h.PType = TypePayloadSpecificFeedback) (hc : h.Count = FormatFIR)
    (hS : Uint32 raw headerSize = some S) (hM : Uint32 raw (headerSize + ssrcLength) = some M) :
    FullIntraRequest.Unmarshal q raw =
      FullIntraRequest.unmarshalLoop raw (headerSize + (h.Length.val * 4) % 65536)
        (headerSize + (h.Length.val * 4) % 65536) firOffset ⟨S, M, q.FIR⟩ := by
  unfold FullIntraRequest.Unmarshal
  simp only [hlen, if_false, hh, hfit, ht, hc, ne_eq, not_true_eq_false, or_self, hS, hM]

/-- The four ways a call of `Unmarshal` can go, the same for every receiver: a
returned error with the receiver untouched, a panic at the first or at the
second SSRC read, or the entry loop. -/
theorem fir_unmarshal_cases (raw : List Byte) :
    (∃ e, ∀ q, FullIntraRequest.Unmarshal q raw = (q, some (.error e))) ∨
    (∀ q, FullIntraRequest.Unmarshal q raw = (q, some .panic)) ∨
    (∃ S, ∀ q : FullIntraRequest,
      FullIntraRequest.Unmarshal q raw = ({ q with SenderSSRC := S }, some .panic)) ∨
    (∃ h S M, Header.Unmarshal raw = .ok h ∧ ¬ raw.length < headerSize + ssrcLength ∧
      ¬ raw.length < headerSize + (4 * h.Length.val) % 65536 ∧
      h.PType = TypePayloadSpecificFeedback ∧ h.Count = FormatFIR ∧
      Uint32 raw headerSize = some S ∧ Uint32 raw (headerSize + ssrcLength) = some M ∧
      ∀ q, FullIntraRequest.Unmarshal q raw =
        FullIntraRequest.unmarshalLoop raw (headerSize + (h.Length.val * 4) % 65536)
          (headerSize + (h.Length.val * 4) % 65536) firOffset ⟨S, M, q.FIR⟩) := by
  by_cases hlen : raw.length < headerSize + ssrcLength
  · exact Or.inl ⟨.errPacketTooShort, fun q => by
      unfold FullIntraRequest.Unmarshal; simp only [hlen, if_true]⟩
  cases hh : Header.Unmarshal raw with
  | error e =>
    exact Or.inl ⟨e, fun q => by
      unfold FullIntraRequest.Unmarshal; simp only [hlen, if_false, hh]⟩
  | ok h =>
    by_cases hfit : raw.length < headerSize + (4 * h.Length.val) % 65536
    · exact Or.inl ⟨.errPacketTooShort, fun q => by
        unfold FullIntraRequest.Unmarshal; simp only [hlen, if_false, hh, hfit, if_true]⟩
    by_cases hty : h.PType ≠ TypePayloadSpecificFeedback ∨ h.Count ≠ FormatFIR
    · exact Or.inl ⟨.errWrongType, fun q => by
        unfold FullIntraRequest.Unmarshal; simp only [hlen, if_false, hh, hfit, hty, if_true]⟩
    have ht : h.PType = TypePayloadSpecificFeedback := by
      by_contra hne; exact hty (Or.inl hne)
    have hc : h.Count = FormatFIR := by
      by_contra hne; exact hty (Or.inr hne)
    cases hS : Uint32 raw headerSize with
    | none =>
      exact Or.inr (Or.inl fun q => by
        unfold FullIntraRequest.Unmarshal
        simp only [hlen, if_false, hh, hfit, hty, hS])
    | some S =>
      cases hM : Uint32 raw (headerSize + ssrcLength) with
      | none =>
        exact Or.inr (Or.inr (Or.inl ⟨S, fun q => by
          unfold FullIntraRequest.Unmarshal
          simp only [hlen, if_false, hh, hfit, hty, hS, hM]⟩))
      | some M =>
        exact Or.inr (Or.inr (Or.inr ⟨h, S, M, rfl, hlen, hfit, ht, hc, rfl, rfl, fun q =>
          fir_unmarshal_accept q raw h S M hlen hh hfit ht hc hS hM⟩))

theorem header_unmarshal_append (b t : List Byte) (h : Rtcp.Header)
    (hh : Header.Unmarshal b = .ok h) : Header.Unmarshal (b ++ t) = .ok h := by
  match b, hh with
  | a0 :: a1 :: a2 :: a3 :: r, hh => exact hh

/-- An error return leaves the receiver untouched. -/
theorem fir_unmarshal_error (q : FullIntraRequest) (raw : List Byte) (e : Err)
    (h : (FullIntraRequest.Unmarshal q raw).2 = some (.error e)) :
    (FullIntraRequest.Unmarshal q raw).1 = q := by
  rcases fir_unmarshal_cases raw with ⟨e2, h1⟩ | h2 | ⟨S, h3⟩ | ⟨hd, S, M, _, _, _, _, _, _, _, h4⟩
  · rw [h1 q]
  · rw [h2 q] at h; simp at h
  · rw [h3 q] at h; simp at h
  · rw [h4 q] at h
    exact absurd h (unmarshalLoop_no_error raw _ e _ _ _)

/-- On an accepted slice the receiver ends with both SSRCs overwritten and with
the decoded entries after the ones it held. -/
theorem fir_unmarshal_appends (q : FullIntraRequest) (b : List Byte)
    (h : (FullIntraRequest.Unmarshal FullIntraRequest.zero b).2 = none) :
    FullIntraRequest.Unmarshal q b =
      (⟨(FullIntraRequest.Unmarshal FullIntraRequest.zero b).1.SenderSSRC,
        (FullIntraRequest.Unmarshal FullIntraRequest.zero b).1.MediaSSRC,
        q.FIR ++ (FullIntraRequest.Unmarshal FullIntraRequest.zero b).1.FIR⟩, none) := by
  rcases fir_unmarshal_cases b with ⟨e2, h1⟩ | h2 | ⟨S, h3⟩ | ⟨hd, S, M, _, _, _, _, _, _, _, h4⟩
  · rw [h1] at h; simp at h
  · rw [h2] at h; simp at h
  · rw [h3] at h; simp at h
  · rw [h4 FullIntraRequest.zero, unmarshalLoop_receiver] at h
    rw [h4 q, h4 FullIntraRequest.zero, unmarshalLoop_receiver]
    rw [unmarshalLoop_receiver b _ _ _ ⟨S, M, FullIntraRequest.zero.FIR⟩]
    simp only [] at h ⊢
    rw [h]
    simp [FullIntraRequest.zero]

/-- A slice accepted into a receiver stays accepted, with the same result, when
bytes are appended to it. -/
theorem fir_unmarshal_append (q r : FullIntraRequest) (b t : List Byte)
    (h : FullIntraRequest.Unmarshal q b = (r, none)) :
    FullIntraRequest.Unmarshal q (b ++ t) = (r, none) := by
  rcases fir_unmarshal_cases b with ⟨e2, h1⟩ | h2 | ⟨S, h3⟩ |
    ⟨hd, S, M, hh, hlen, hfit, ht, hc, hS, hM, h4⟩
  · rw [h1] at h; simp at h
  · rw [h2] at h; simp at h
  · rw [h3] at h; simp at h
  · rw [h4 q] at h
    rw [fir_unmarshal_accept q (b ++ t) hd S M (by rw [List.length_append]; omega)
      (header_unmarshal_append b t hd hh) (by rw [List.length_append]; omega) ht hc
      (Uint32_append b t _ S hS) (Uint32_append b t _ M hM)]
    exact unmarshalLoop_append b t _ _ _ _ r h

/-! ## Frame of the marshal loop, error returns of PLI, destination list -/

theorem overlay_length (es : List FIREntry) :
    ∀ body : List Byte, 8 * es.length ≤ body.length → (overlay es body).length = body.length := by
  induction es with
  | nil => intro body _; rw [overlay_nil]
  | cons e es ih =>
    intro body hb
    obtain ⟨a, b, c, d, s, r1, r2, r3, t, rfl⟩ := exists_eight body (by simp at hb; omega)
    rw [overlay_cons, List.length_append, ih t (by simp at hb; omega)]
    simp [FIREntry.record, bytes32]
    omega

theorem overlay_drop (es : List FIREntry) :
    ∀ body : List Byte, 8 * es.length ≤ body.length →
      (overlay es body).drop (8 * es.length) = body.drop (8 * es.length) := by
  induction es with
  | nil => intro body _; rw [overlay_nil]
  | cons e es ih =>
    intro body hb
    obtain ⟨a, b, c, d, s, r1, r2, r3, t, rfl⟩ := exists_eight body (by simp at hb; omega)
    have h8 : 8 * (e :: es).length = (e.record r1 r2 r3).length + 8 * es.length := by
      simp [FIREntry.record, bytes32]; omega
    rw [overlay_cons, h8, List.drop_append, ih t (by simp at hb; omega)]
    have h9 : (e.record r1 r2 r3).length + 8 * es.length = 8 * es.length + 8 := by
      simp [FIREntry.record, bytes32]; omega
    rw [h9]
    rfl

theorem pli_unmarshal_error (q : PictureLossIndication) (raw : List Byte) (e : Err)
    (h : (PictureLossIndication.Unmarshal q raw).2 = some (.error e)) :
    (PictureLossIndication.Unmarshal q raw).1 = q := by
  unfold PictureLossIndication.Unmarshal at h ⊢
  split
  · rfl
  · rename_i hlen
    simp only [hlen, if_false] at h
    split
    · rfl
    · rename_i hd hh
      simp only [hh] at h
      split
      · rfl
      · rename_i hty
        simp only [hty, if_false] at h
        cases hS : Uint32 raw headerSize with
        | none => rfl
        | some S =>
          rw [hS] at h
          cases hM : Uint32 raw (headerSize + ssrcLength) with
          | none => rw [hM] at h; simp at h
          | some M => rw [hM] at h; simp at h

theorem foldl_ssrc (es : List FIREntry) :
    ∀ acc : List U32,
      es.foldl (fun ssrcs entry => ssrcs ++ [entry.SSRC]) acc = acc ++ es.map (fun e => e.SSRC) := by
  induction es with
  | nil => intro acc; simp
  | cons e es ih => intro acc; simp [List.foldl_cons, ih]

/-- Header length and marshalled size as functions of the entry count. -/
theorem fir_sizes (p : FullIntraRequest) (n : Nat) (hn : p.FIR.length = n) :
    p.Header.Length.val = ((12 + n * 8) / 4 - 1) % 65536 ∧ p.MarshalSize = 12 + n * 8 := by
  subst hn
  exact ⟨rfl, rfl⟩

/-! ## Decoding a well-formed FIR slice -/

/-- With an even header length `2 + 2 * n` below the `uint16` wrap and the
declared packet inside the slice, `Unmarshal` into a zero-value receiver returns
nil with the two SSRCs and the `n` entries of the strides at 12, 20, ... -/
theorem fir_unmarshal_entries (n : Nat) (raw : List Byte) (h : Rtcp.Header)
    (hn : 4 * (2 + 2 * n) < 65536) (hlen : 12 + 8 * n ≤ raw.length)
    (hh : Header.Unmarshal raw = .ok h) (ht : h.PType = TypePayloadSpecificFeedback)
    (hc : h.Count = FormatFIR) (hL : h.Length.val = 2 + 2 * n) :
    FullIntraRequest.Unmarshal FullIntraRequest.zero raw =
      (⟨wire32 raw 4, wire32 raw 8, (List.range n).map (fun k => wireEntry raw (12 + 8 * k))⟩,
        none) := by
  have hstop : headerSize + (h.Length.val * 4) % 65536 = 12 + 8 * n := by
    rw [hL]; simp only [headerSize]; omega
  rw [fir_unmarshal_accept FullIntraRequest.zero raw h (wire32 raw 4) (wire32 raw 8)
    (by simp only [headerSize, ssrcLength]; omega) hh
    (by rw [hL]; simp only [headerSize]; omega) ht hc
    (Uint32_eq_wire32 raw headerSize (by simp only [headerSize]; omega))
    (Uint32_eq_wire32 raw (headerSize + ssrcLength) (by simp only [headerSize, ssrcLength]; omega))]
  rw [hstop, unmarshalLoop_entries raw (12 + 8 * n) n (12 + 8 * n) firOffset _ rfl hlen (by omega)]
  simp [FullIntraRequest.zero, firOffset, headerSize]

theorem wire32_congr (raw raw2 : List Byte) (off : Nat)
    (h : ∀ j, off ≤ j → j < off + 4 → raw2.getD j 0 = raw.getD j 0) :
    wire32 raw2 off = wire32 raw off := by
  simp only [wire32, h off (by omega) (by omega), h (off + 1) (by omega) (by omega),
    h (off + 2) (by omega) (by omega), h (off + 3) (by omega) (by omega)]

theorem header_unmarshal_congr (raw raw2 : List Byte) (hl : 4 ≤ raw.length)
    (hl2 : 4 ≤ raw2.length) (h : ∀ j, j < 4 → raw2.getD j 0 = raw.getD j 0) :
    Header.Unmarshal raw2 = Header.Unmarshal raw := by
  obtain ⟨a0, a1, a2, a3, r, rfl⟩ := exists_four raw hl
  obtain ⟨c0, c1, c2, c3, r2, rfl⟩ := exists_four raw2 hl2
  have e0 := h 0 (by omega)
  have e1 := h 1 (by omega)
  have e2 := h 2 (by omega)
  have e3 := h 3 (by omega)
  simp [List.getD] at e0 e1 e2 e3
  subst e0 e1 e2 e3
  rfl

/-! ## The claims -/

/-- C1 (code defect at the top of the stated range): a FullIntraRequest with
8191 entries marshals without error to 65540 bytes, but Unmarshal of those bytes
into a zero-value receiver returns nil with an empty FIR list, so the round trip
does not give the packet back. -/
theorem C1_roundtrip_fails_at_8191 :
    ∃ b, FullIntraRequest.Marshal ⟨1, 2, List.replicate 8191 ⟨3, 4⟩⟩ = .ok b ∧
      b.length = 65540 ∧
      FullIntraRequest.Unmarshal FullIntraRequest.zero b = (⟨1, 2, []⟩, none) ∧
      FullIntraRequest.Unmarshal FullIntraRequest.zero b ≠
        (⟨1, 2, List.replicate 8191 ⟨3, 4⟩⟩, none) := by
  obtain ⟨b, hb, hl, hu⟩ :=
    fir_roundtrip_wrap ⟨1, 2, List.replicate 8191 ⟨3, 4⟩⟩
      (List.length_replicate _ _)
  refine ⟨b, hb, hl, hu, ?_⟩
  rw [hu]
  intro h
  have h2 : ([] : List FIREntry).length = (List.replicate 8191 (⟨3, 4⟩ : FIREntry)).length :=
    congrArg (fun r => r.1.FIR.length) h
  rw [List.length_replicate] at h2
  exact absurd h2 (by decide)

/-- C2: for every PictureLossIndication p and every receiver q, Marshal(p)
succeeds and q.Unmarshal of the marshalled bytes returns nil and leaves the
receiver equal to p. -/
theorem C2_pli_roundtrip (p q : PictureLossIndication) :
    ∃ b, p.Marshal = .ok b ∧ PictureLossIndication.Unmarshal q b = (p, none) := by
  refine ⟨_, pli_marshal_layout p, ?_⟩
  have := pli_unmarshal_body q p.Header p.SenderSSRC p.MediaSSRC [] rfl rfl
  rw [List.append_nil] at this
  exact this

/-- C3: Marshal returns no error and a slice of exactly MarshalSize bytes, where
MarshalSize is 12 for a PictureLossIndication and 12 + 8 * len(FIR) for a
FullIntraRequest; with zero entries a FullIntraRequest marshals to 12 bytes. -/
theorem C3_marshal_length :
    (∀ p : PictureLossIndication,
      p.MarshalSize = 12 ∧ ∃ b, p.Marshal = .ok b ∧ b.length = p.MarshalSize) ∧
    (∀ p : FullIntraRequest,
      p.MarshalSize = 12 + 8 * p.FIR.length ∧
        ∃ b, p.Marshal = .ok b ∧ b.length = p.MarshalSize) ∧
    (∀ S M : U32, ∃ b, FullIntraRequest.Marshal ⟨S, M, []⟩ = .ok b ∧ b.length = 12) := by
  refine ⟨fun p => ⟨rfl, _, pli_marshal_layout p, rfl⟩, fun p => ⟨?_, ?_⟩,
    fun S M => ⟨_, rfl, rfl⟩⟩
  · simp only [FullIntraRequest.MarshalSize, firOffset, headerSize]; omega
  · refine ⟨_, fir_marshal_layout p, ?_⟩
    simp only [List.length_append, header_bytes_length, bytes32_length, records_length,
      FullIntraRequest.MarshalSize, firOffset, headerSize]
    omega

/-- C4 (code defect): a 12-byte slice whose FIR header declares length 16384
describes a packet of 4 + 4 * 16384 bytes, far past the end of the slice, yet
FullIntraRequest.Unmarshal returns nil (with no entries) instead of
PacketTooShort, because the uint16 product 4 * 16384 wraps to 0. -/
theorem C4_declared_length_wraps :
    12 ≤ [(0x84 : Byte), 206, 0x40, 0, 0, 0, 0, 1, 0, 0, 0, 2].length ∧
    Header.Unmarshal [0x84, 206, 0x40, 0, 0, 0, 0, 1, 0, 0, 0, 2] = .ok ⟨4, 206, 16384⟩ ∧
    [(0x84 : Byte), 206, 0x40, 0, 0, 0, 0, 1, 0, 0, 0, 2].length < 4 + 4 * 16384 ∧
    FullIntraRequest.Unmarshal FullIntraRequest.zero
      [0x84, 206, 0x40, 0, 0, 0, 0, 1, 0, 0, 0, 2] = (⟨1, 2, []⟩, none) := by
  decide

/-- C5 (code defect): FullIntraRequest.Unmarshal only rejects slices shorter
than 8 bytes.  On an 8-byte slice with a FIR header of length 1 it stores
SenderSSRC and then panics reading MediaSSRC; on an 8-byte slice with a PLI
header it returns WrongType.  Neither is PacketTooShort. -/
theorem C5_fir_accepts_eight_bytes :
    FullIntraRequest.Unmarshal FullIntraRequest.zero [0x84, 206, 0, 1, 0, 0, 0, 1] =
      (⟨1, 0, []⟩, some .panic) ∧
    FullIntraRequest.Unmarshal FullIntraRequest.zero [0x81, 206, 0, 1, 0, 0, 0, 1] =
      (FullIntraRequest.zero, some (.error .errWrongType)) := by
  decide

/-- C6 (counterexample): a 12-byte slice whose header decodes with count
FormatPLI and declared length 3 is rejected with PacketTooShort, not WrongType:
the declared-length check runs before the type check. -/
theorem C6_counterexample :
    12 ≤ [(0x81 : Byte), 206, 0, 3, 0, 0, 0, 1, 0, 0, 0, 2].length ∧
    Header.Unmarshal [0x81, 206, 0, 3, 0, 0, 0, 1, 0, 0, 0, 2] = .ok ⟨1, 206, 3⟩ ∧
    (1 : Byte) ≠ FormatFIR ∧
    FullIntraRequest.Unmarshal FullIntraRequest.zero
      [0x81, 206, 0, 3, 0, 0, 0, 1, 0, 0, 0, 2] =
        (FullIntraRequest.zero, some (.error .errPacketTooShort)) := by
  decide

/-- C6 (amended): for every slice of at least 12 bytes whose header decodes, whose
declared packet (4 + 4 * L bytes) does not extend past the end of the slice, and
whose type is not PayloadSpecificFeedback or whose count is not FormatFIR,
FullIntraRequest.Unmarshal fails with WrongType and leaves the receiver as it
was. -/
theorem C6_wrong_type (q : FullIntraRequest) (raw : List Byte) (h : Rtcp.Header)
    (hlen : 12 ≤ raw.length) (hh : Header.Unmarshal raw = .ok h)
    (hfit : headerSize + 4 * h.Length.val ≤ raw.length)
    (hty : h.PType ≠ TypePayloadSpecificFeedback ∨ h.Count ≠ FormatFIR) :
    FullIntraRequest.Unmarshal q raw = (q, some (.error .errWrongType)) :=
  fir_unmarshal_wrongType q raw h hlen hh hfit hty

/-- C6 (amended), applied to the twelve bytes of a PLI packet. -/
theorem C6_wrong_type_witness :
    12 ≤ [(0x81 : Byte), 206, 0, 2, 0, 0, 0, 1, 0, 0, 0, 2].length ∧
    Header.Unmarshal [0x81, 206, 0, 2, 0, 0, 0, 1, 0, 0, 0, 2] = .ok ⟨1, 206, 2⟩ ∧
    FullIntraRequest.Unmarshal ⟨7, 8, [⟨9, 10⟩]⟩ [0x81, 206, 0, 2, 0, 0, 0, 1, 0, 0, 0, 2] =
      (⟨7, 8, [⟨9, 10⟩]⟩, some (.error .errWrongType)) :=
  ⟨by decide, by decide,
    C6_wrong_type ⟨7, 8, [⟨9, 10⟩]⟩ [0x81, 206, 0, 2, 0, 0, 0, 1, 0, 0, 0, 2] ⟨1, 206, 2⟩
      (by decide) (by decide) (by decide) (by decide)⟩

/-- C7: cross-variant rejection.  The bytes of any marshalled
PictureLossIndication make FullIntraRequest.Unmarshal fail with WrongType, and
the bytes of any marshalled FullIntraRequest make PictureLossIndication.Unmarshal
fail with WrongType; the receiver is left as it was. -/
theorem C7_cross_variant :
    (∀ (p : PictureLossIndication) (q : FullIntraRequest),
      ∃ b, p.Marshal = .ok b ∧
        FullIntraRequest.Unmarshal q b = (q, some (.error .errWrongType))) ∧
    (∀ (f : FullIntraRequest) (q : PictureLossIndication),
      ∃ b, f.Marshal = .ok b ∧
        PictureLossIndication.Unmarshal q b = (q, some (.error .errWrongType))) := by
  constructor
  · intro p q
    refine ⟨_, pli_marshal_layout p, ?_⟩
    have hU := header_unmarshal_bytes p.Header (bytes32 p.SenderSSRC ++ bytes32 p.MediaSSRC)
      (by simp only [PictureLossIndication.Header]; decide)
    refine fir_unmarshal_wrongType q _ p.Header ?_ hU ?_ ?_
    · simp only [List.length_append, header_bytes_length, bytes32_length]
      omega
    · simp only [List.length_append, header_bytes_length, bytes32_length,
        PictureLossIndication.Header, pliLength, headerSize]
      decide
    · simp only [PictureLossIndication.Header]
      decide
  · intro f q
    refine ⟨_, fir_marshal_layout f, ?_⟩
    have hU := header_unmarshal_bytes f.Header
      (bytes32 f.SenderSSRC ++ (bytes32 f.MediaSSRC ++ records f.FIR))
      (by simp only [FullIntraRequest.Header]; decide)
    have hlen : ¬ (f.Header.bytes ++ (bytes32 f.SenderSSRC ++ (bytes32 f.MediaSSRC ++
        records f.FIR))).length < headerSize + ssrcLength * 2 := by
      simp only [List.length_append, header_bytes_length, bytes32_length, headerSize,
        ssrcLength]
      omega
    unfold PictureLossIndication.Unmarshal
    simp only [hlen, if_false, hU]
    have hc : f.Header.Count ≠ FormatPLI := by
      simp only [FullIntraRequest.Header]; decide
    simp only [hc, ne_eq, not_false_eq_true, or_true, if_true]

/-- C8 (code defect): MarshalTo never writes the three reserved bytes of a
record, so they keep whatever the buffer held: marshalling one entry into a
buffer of twenty 0xFF bytes leaves 0xFF at offsets 17, 18 and 19. -/
theorem C8_reserved_bytes_not_written :
    FullIntraRequest.MarshalTo ⟨1, 2, [⟨3, 4⟩]⟩ (List.replicate 20 255) =
      .ok (20, [4, 206, 0, 4, 0, 0, 0, 1, 0, 0, 0, 2, 0, 0, 0, 3, 4, 255, 255, 255]) := by
  decide

/-- C9: the bytes returned by Marshal(p) are the 4-byte header, SenderSSRC and
MediaSSRC big-endian, then for each entry in order the 8-byte record SSRC
big-endian, SequenceNumber, 00 00 00, entry i sitting at offset 12 + 8 * i; the
packet with SenderSSRC 1, MediaSSRC 2 and the single entry (3, 4) marshals to 20
bytes with 00 00 00 03 at [12:16), 04 at 16 and 00 00 00 at [17:20). -/
theorem C9_fir_marshal_bytes :
    (∀ p : FullIntraRequest, ∃ hdr b,
      Header.MarshalTo p.Header (List.replicate 4 0) = .ok (4, hdr) ∧ hdr.length = 4 ∧
      p.Marshal = .ok b ∧
      b = hdr ++ bytes32 p.SenderSSRC ++ bytes32 p.MediaSSRC ++
        p.FIR.flatMap (fun e => bytes32 e.SSRC ++ [e.SequenceNumber, 0, 0, 0]) ∧
      ∀ (i : Nat) (hi : i < p.FIR.length),
        (b.drop (12 + 8 * i)).take 8 =
          bytes32 (p.FIR.get ⟨i, hi⟩).SSRC ++ [(p.FIR.get ⟨i, hi⟩).SequenceNumber, 0, 0, 0]) ∧
    (∃ b, FullIntraRequest.Marshal ⟨1, 2, [⟨3, 4⟩]⟩ = .ok b ∧ b.length = 20 ∧
      (b.drop 12).take 4 = [0, 0, 0, 3] ∧ b.get? 16 = some 4 ∧ b.drop 17 = [0, 0, 0]) := by
  constructor
  · intro p
    refine ⟨p.Header.bytes, _, rfl, rfl, fir_marshal_layout p, ?_, ?_⟩
    · simp only [List.append_assoc]
      rfl
    · intro i hi
      have h12 : 12 + 8 * i = (p.Header.bytes ++ bytes32 p.SenderSSRC ++
          bytes32 p.MediaSSRC).length + 8 * i := rfl
      rw [← List.append_assoc, ← List.append_assoc, h12, List.drop_append]
      exact records_stride p.FIR i hi
  · exact ⟨_, rfl, by decide, by decide, by decide, by decide⟩

/-- C10: the header of every PictureLossIndication has type
PayloadSpecificFeedback, count FormatPLI and length 2, and Marshal(p) is exactly
12 bytes: the 4 header bytes, SenderSSRC big-endian, MediaSSRC big-endian; for
SenderSSRC 0xDEADBEEF and MediaSSRC 0xCAFEBABE the body bytes are
DE AD BE EF CA FE BA BE. -/
theorem C10_pli_header_and_bytes :
    (∀ p : PictureLossIndication,
      p.Header = ⟨FormatPLI, TypePayloadSpecificFeedback, 2⟩ ∧
      ∃ hdr b, Header.MarshalTo p.Header (List.replicate 4 0) = .ok (4, hdr) ∧ hdr.length = 4 ∧
        p.Marshal = .ok b ∧ b.length = 12 ∧
        b = hdr ++ bytes32 p.SenderSSRC ++ bytes32 p.MediaSSRC) ∧
    (∃ b, PictureLossIndication.Marshal ⟨0xDEADBEEF, 0xCAFEBABE⟩ = .ok b ∧ b.length = 12 ∧
      b.drop 4 = [0xDE, 0xAD, 0xBE, 0xEF, 0xCA, 0xFE, 0xBA, 0xBE]) := by
  constructor
  · intro p
    exact ⟨rfl, p.Header.bytes, _, rfl, rfl, pli_marshal_layout p, rfl, by
      simp only [List.append_assoc]⟩
  · exact ⟨_, rfl, by decide, by decide⟩

/-- C11 (counterexample): with 32767 entries MarshalSize / 4 - 1 is 65536, which
does not fit the 16-bit length field: the header length is 0. -/
theorem C11_counterexample :
    (FullIntraRequest.Header ⟨0, 0, List.replicate 32767 ⟨0, 0⟩⟩).Length.val = 0 ∧
    (FullIntraRequest.MarshalSize ⟨0, 0, List.replicate 32767 ⟨0, 0⟩⟩) / 4 - 1 = 65536 ∧
    (FullIntraRequest.Header ⟨0, 0, List.replicate 32767 ⟨0, 0⟩⟩).Length.val ≠
      (FullIntraRequest.MarshalSize ⟨0, 0, List.replicate 32767 ⟨0, 0⟩⟩) / 4 - 1 := by
  obtain ⟨h1, h2⟩ := fir_sizes ⟨0, 0, List.replicate 32767 ⟨0, 0⟩⟩ 32767
    (List.length_replicate _ _)
  rw [h1, h2]
  decide

/-- C11 (amended): for every FullIntraRequest p with at most 32766 entries the
length field of p.Header() equals (p.MarshalSize() / 4) - 1, with type
PayloadSpecificFeedback and count FormatFIR; for any number of entries it is
that value reduced modulo 65536 by the conversion to uint16. -/
theorem C11_header_length (p : FullIntraRequest) (h : p.FIR.length ≤ 32766) :
    p.Header.Length.val = p.MarshalSize / 4 - 1 ∧
    p.Header.PType = TypePayloadSpecificFeedback ∧ p.Header.Count = FormatFIR ∧
    ∀ p2 : FullIntraRequest, p2.Header.Length.val = (p2.MarshalSize / 4 - 1) % 65536 := by
  refine ⟨?_, rfl, rfl, fun p2 => rfl⟩
  simp only [FullIntraRequest.Header, FullIntraRequest.MarshalSize, toU16, firOffset, headerSize]
  omega

/-- C11 (amended), at a packet with three entries: length 8 = 36 / 4 - 1. -/
theorem C11_header_length_witness :
    (FullIntraRequest.Header ⟨1, 2, [⟨3, 4⟩, ⟨5, 6⟩, ⟨7, 8⟩]⟩).Length.val = 8 ∧
    (FullIntraRequest.MarshalSize ⟨1, 2, [⟨3, 4⟩, ⟨5, 6⟩, ⟨7, 8⟩]⟩) / 4 - 1 = 8 ∧
    (FullIntraRequest.Header ⟨1, 2, [⟨3, 4⟩, ⟨5, 6⟩, ⟨7, 8⟩]⟩).Length.val =
      (FullIntraRequest.MarshalSize ⟨1, 2, [⟨3, 4⟩, ⟨5, 6⟩, ⟨7, 8⟩]⟩) / 4 - 1 :=
  ⟨by decide, by decide,
    (C11_header_length ⟨1, 2, [⟨3, 4⟩, ⟨5, 6⟩, ⟨7, 8⟩]⟩ (by decide)).1⟩

/-- C12: DestinationSSRC of a PictureLossIndication is the one-element list of
its MediaSSRC; DestinationSSRC of a FullIntraRequest is the list of the entry
SSRCs in entry order: same length as FIR, element i is FIR[i].SSRC, duplicates
kept, empty when FIR is empty. -/
theorem C12_destination_ssrc :
    (∀ p : PictureLossIndication, p.DestinationSSRC = [p.MediaSSRC]) ∧
    (∀ p : FullIntraRequest,
      p.DestinationSSRC = p.FIR.map (fun e => e.SSRC) ∧
      p.DestinationSSRC.length = p.FIR.length ∧
      ∀ (i : Nat) (hi : i < p.FIR.length),
        p.DestinationSSRC.get? i = some (p.FIR.get ⟨i, hi⟩).SSRC) ∧
    (∀ S M : U32, FullIntraRequest.DestinationSSRC ⟨S, M, []⟩ = []) ∧
    FullIntraRequest.DestinationSSRC ⟨1, 2, [⟨7, 0⟩, ⟨9, 1⟩, ⟨7, 2⟩]⟩ = [7, 9, 7] := by
  refine ⟨fun p => rfl, fun p => ?_, fun S M => rfl, by decide⟩
  have hmap : p.DestinationSSRC = p.FIR.map (fun e => e.SSRC) := by
    unfold FullIntraRequest.DestinationSSRC
    rw [foldl_ssrc]
    rfl
  refine ⟨hmap, by rw [hmap, List.length_map], fun i hi => ?_⟩
  rw [hmap]
  simp [List.getElem?_eq_getElem hi]

/-- C13: for every slice of at least 12 bytes whose header decodes with type
PayloadSpecificFeedback and count FormatPLI, PictureLossIndication.Unmarshal
returns nil and sets SenderSSRC to the big-endian value of bytes [4:8) and
MediaSSRC to that of bytes [8:12); no condition is put on the length field or on
the bytes after offset 12. -/
theorem C13_pli_unmarshal (q : PictureLossIndication) (raw : List Byte) (h : Rtcp.Header)
    (hlen : 12 ≤ raw.length) (hh : Header.Unmarshal raw = .ok h)
    (ht : h.PType = TypePayloadSpecificFeedback) (hc : h.Count = FormatPLI) :
    PictureLossIndication.Unmarshal q raw = (⟨wire32 raw 4, wire32 raw 8⟩, none) := by
  have h1 : ¬ raw.length < headerSize + ssrcLength * 2 := by
    simp only [headerSize, ssrcLength]; omega
  have hS := Uint32_eq_wire32 raw headerSize (by simp only [headerSize]; omega)
  have hM := Uint32_eq_wire32 raw (headerSize + ssrcLength)
    (by simp only [headerSize, ssrcLength]; omega)
  unfold PictureLossIndication.Unmarshal
  simp only [h1, if_false, hh, ht, hc, ne_eq, not_true_eq_false, or_self, hS, hM]
  rfl

/-- C13 at a 15-byte slice with length field 0xFFFF and three trailing bytes. -/
theorem C13_pli_unmarshal_witness :
    Header.Unmarshal [0x81, 206, 0xFF, 0xFF, 0xDE, 0xAD, 0xBE, 0xEF, 0xCA, 0xFE, 0xBA, 0xBE,
      1, 2, 3] = .ok ⟨1, 206, 65535⟩ ∧
    wire32 [0x81, 206, 0xFF, 0xFF, 0xDE, 0xAD, 0xBE, 0xEF, 0xCA, 0xFE, 0xBA, 0xBE, 1, 2, 3] 4
      = 0xDEADBEEF ∧
    wire32 [0x81, 206, 0xFF, 0xFF, 0xDE, 0xAD, 0xBE, 0xEF, 0xCA, 0xFE, 0xBA, 0xBE, 1, 2, 3] 8
      = 0xCAFEBABE ∧
    PictureLossIndication.Unmarshal ⟨7, 8⟩
      [0x81, 206, 0xFF, 0xFF, 0xDE, 0xAD, 0xBE, 0xEF, 0xCA, 0xFE, 0xBA, 0xBE, 1, 2, 3] =
      (⟨wire32 [0x81, 206, 0xFF, 0xFF, 0xDE, 0xAD, 0xBE, 0xEF, 0xCA, 0xFE, 0xBA, 0xBE, 1, 2, 3] 4,
        wire32 [0x81, 206, 0xFF, 0xFF, 0xDE, 0xAD, 0xBE, 0xEF, 0xCA, 0xFE, 0xBA, 0xBE, 1, 2, 3] 8⟩,
        none) :=
  ⟨by decide, by decide, by decide,
    C13_pli_unmarshal ⟨7, 8⟩
      [0x81, 206, 0xFF, 0xFF, 0xDE, 0xAD, 0xBE, 0xEF, 0xCA, 0xFE, 0xBA, 0xBE, 1, 2, 3]
      ⟨1, 206, 65535⟩ (by decide) (by decide) (by decide) (by decide)⟩

/-- C14: for every n with 4 * (2 + 2n) < 65536 and every slice of at least
12 + 8n bytes whose header has type PayloadSpecificFeedback, count FormatFIR and
length 2 + 2n, Unmarshal into a zero-value receiver returns nil with SenderSSRC
the big-endian bytes [4:8), MediaSSRC the big-endian bytes [8:12) and exactly n
entries in wire order, entry k having SSRC the big-endian bytes [12+8k, 16+8k)
and SequenceNumber byte 16+8k; a slice that differs only in reserved bytes
(offsets 17+8k, 18+8k, 19+8k) decodes to the same result. -/
theorem C14_unmarshal_entries (n : Nat) (raw : List Byte) (h : Rtcp.Header)
    (hn : 4 * (2 + 2 * n) < 65536) (hlen : 12 + 8 * n ≤ raw.length)
    (hh : Header.Unmarshal raw = .ok h) (ht : h.PType = TypePayloadSpecificFeedback)
    (hc : h.Count = FormatFIR) (hL : h.Length.val = 2 + 2 * n) :
    FullIntraRequest.Unmarshal FullIntraRequest.zero raw =
      (⟨wire32 raw 4, wire32 raw 8, (List.range n).map (fun k => wireEntry raw (12 + 8 * k))⟩,
        none) ∧
    ((List.range n).map (fun k => wireEntry raw (12 + 8 * k))).length = n ∧
    (∀ k, (wireEntry raw (12 + 8 * k)).SSRC =
        be32 (raw.getD (12 + 8 * k) 0) (raw.getD (13 + 8 * k) 0) (raw.getD (14 + 8 * k) 0)
          (raw.getD (15 + 8 * k) 0) ∧
      (wireEntry raw (12 + 8 * k)).SequenceNumber = raw.getD (16 + 8 * k) 0) ∧
    ∀ raw2 : List Byte, raw2.length = raw.length →
      (∀ j, (j < 12 ∨ (j - 12) % 8 < 5) → raw2.getD j 0 = raw.getD j 0) →
      FullIntraRequest.Unmarshal FullIntraRequest.zero raw2 =
        FullIntraRequest.Unmarshal FullIntraRequest.zero raw := by
  have main := fir_unmarshal_entries n raw h hn hlen hh ht hc hL
  refine ⟨main, by simp, fun k => ⟨?_, ?_⟩, fun raw2 hl2 hag => ?_⟩
  · simp only [wireEntry, wire32]
    have e1 : 12 + 8 * k + 1 = 13 + 8 * k := by omega
    have e2 : 12 + 8 * k + 2 = 14 + 8 * k := by omega
    have e3 : 12 + 8 * k + 3 = 15 + 8 * k := by omega
    rw [e1, e2, e3]
  · simp only [wireEntry]
    have e4 : 12 + 8 * k + 4 = 16 + 8 * k := by omega
    rw [e4]
  · have hh2 : Header.Unmarshal raw2 = .ok h := by
      rw [header_unmarshal_congr raw raw2 (by omega) (by omega)
        (fun j hj => hag j (Or.inl (by omega)))]
      exact hh
    rw [main, fir_unmarshal_entries n raw2 h hn (by omega) hh2 ht hc hL]
    have w4 : wire32 raw2 4 = wire32 raw 4 :=
      wire32_congr raw raw2 4 (fun j _ _ => hag j (Or.inl (by omega)))
    have w8 : wire32 raw2 8 = wire32 raw 8 :=
      wire32_congr raw raw2 8 (fun j _ _ => hag j (Or.inl (by omega)))
    have wk : ∀ k, wireEntry raw2 (12 + 8 * k) = wireEntry raw (12 + 8 * k) := by
      intro k
      simp only [wireEntry]
      rw [wire32_congr raw raw2 (12 + 8 * k) (fun j _ _ => hag j (Or.inr (by omega))),
        hag (12 + 8 * k + 4) (Or.inr (by omega))]
    simp only [w4, w8, wk]

/-- C14 at a 28-byte slice with two entries and non-zero reserved bytes. -/
theorem C14_unmarshal_entries_witness :
    Header.Unmarshal [0x84, 206, 0, 6, 0, 0, 0, 1, 0, 0, 0, 2, 0, 0, 0, 3, 4, 9, 9, 9,
      0, 0, 1, 0, 5, 8, 8, 8] = .ok ⟨4, 206, 6⟩ ∧
    FullIntraRequest.Unmarshal FullIntraRequest.zero
      [0x84, 206, 0, 6, 0, 0, 0, 1, 0, 0, 0, 2, 0, 0, 0, 3, 4, 9, 9, 9,
        0, 0, 1, 0, 5, 8, 8, 8] = (⟨1, 2, [⟨3, 4⟩, ⟨256, 5⟩]⟩, none) :=
  ⟨by decide,
    (C14_unmarshal_entries 2
      [0x84, 206, 0, 6, 0, 0, 0, 1, 0, 0, 0, 2, 0, 0, 0, 3, 4, 9, 9, 9, 0, 0, 1, 0, 5, 8, 8, 8]
      ⟨4, 206, 6⟩ (by decide) (by decide) (by decide) (by decide) (by decide) (by decide)).1.trans
      (by decide)⟩

/-- C15: no phantom entries.  If Unmarshal into a zero-value receiver accepts a
slice b, then for every byte sequence t it accepts b ++ t as well and yields the
same packet: the entries come from the header length, not from the slice
length. -/
theorem C15_no_phantom_entries (b t : List Byte) (r : FullIntraRequest)
    (h : FullIntraRequest.Unmarshal FullIntraRequest.zero b = (r, none)) :
    FullIntraRequest.Unmarshal FullIntraRequest.zero (b ++ t) = (r, none) :=
  fir_unmarshal_append FullIntraRequest.zero r b t h

/-- C15 at a one-entry packet followed by eight bytes shaped like a second
entry. -/
theorem C15_no_phantom_entries_witness :
    FullIntraRequest.Unmarshal FullIntraRequest.zero
      [0x84, 206, 0, 4, 0, 0, 0, 1, 0, 0, 0, 2, 0, 0, 0, 3, 4, 0, 0, 0] =
      (⟨1, 2, [⟨3, 4⟩]⟩, none) ∧
    FullIntraRequest.Unmarshal FullIntraRequest.zero
      ([0x84, 206, 0, 4, 0, 0, 0, 1, 0, 0, 0, 2, 0, 0, 0, 3, 4, 0, 0, 0] ++
        [0, 0, 0, 5, 6, 0, 0, 0]) = (⟨1, 2, [⟨3, 4⟩]⟩, none) :=
  ⟨by decide,
    C15_no_phantom_entries [0x84, 206, 0, 4, 0, 0, 0, 1, 0, 0, 0, 2, 0, 0, 0, 3, 4, 0, 0, 0]
      [0, 0, 0, 5, 6, 0, 0, 0] ⟨1, 2, [⟨3, 4⟩]⟩ (by decide)⟩

/-- C16: for a packet of either variant and a buffer of at least MarshalSize
bytes, MarshalTo returns no error and the byte count MarshalSize, keeps the
length of the buffer and leaves every byte at an offset >= MarshalSize as it
was. -/
theorem C16_marshalTo_frame (p : PictureLossIndication) (f : FullIntraRequest)
    (buf1 buf2 : List Byte) (h1 : p.MarshalSize ≤ buf1.length)
    (h2 : f.MarshalSize ≤ buf2.length) :
    (∃ out, p.MarshalTo buf1 = .ok (p.MarshalSize, out) ∧ out.length = buf1.length ∧
      out.drop p.MarshalSize = buf1.drop p.MarshalSize ∧
      ∀ i, p.MarshalSize ≤ i → out.get? i = buf1.get? i) ∧
    (∃ out, f.MarshalTo buf2 = .ok (f.MarshalSize, out) ∧ out.length = buf2.length ∧
      out.drop f.MarshalSize = buf2.drop f.MarshalSize ∧
      ∀ i, f.MarshalSize ≤ i → out.get? i = buf2.get? i) := by
  have key : ∀ (out buf : List Byte) (n : Nat), out.drop n = buf.drop n →
      ∀ i, n ≤ i → out.get? i = buf.get? i := by
    intro out buf n hd i hi
    obtain ⟨j, rfl⟩ : ∃ j, i = n + j := ⟨i - n, by omega⟩
    have e1 : (out.drop n).get? j = out.get? (n + j) := by
      simp only [List.get?_eq_getElem?, List.getElem?_drop]
    have e2 : (buf.drop n).get? j = buf.get? (n + j) := by
      simp only [List.get?_eq_getElem?, List.getElem?_drop]
    rw [← e1, ← e2, hd]
  constructor
  · have hsz : p.MarshalSize = 12 := rfl
    have hd : (p.Header.bytes ++ (bytes32 p.SenderSSRC ++ (bytes32 p.MediaSSRC ++
        buf1.drop 12))).drop p.MarshalSize = buf1.drop p.MarshalSize := by
      have e : p.MarshalSize = (p.Header.bytes ++ bytes32 p.SenderSSRC ++
          bytes32 p.MediaSSRC).length + 0 := rfl
      rw [← List.append_assoc, ← List.append_assoc]
      conv_lhs => rw [e, List.drop_append]
      rw [hsz]
      rfl
    refine ⟨_, pli_marshalTo_layout p buf1 h1, ?_, hd, key _ _ _ hd⟩
    simp only [List.length_append, header_bytes_length, bytes32_length, List.length_drop]
    omega
  · have hsz : f.MarshalSize = 12 + f.FIR.length * 8 := rfl
    have hb : 8 * f.FIR.length ≤ (buf2.drop firOffset).length := by
      rw [List.length_drop]
      simp only [firOffset, headerSize]
      omega
    have hd : (f.Header.bytes ++ (bytes32 f.SenderSSRC ++ (bytes32 f.MediaSSRC ++
        overlay f.FIR (buf2.drop firOffset)))).drop f.MarshalSize = buf2.drop f.MarshalSize := by
      have e : f.MarshalSize = (f.Header.bytes ++ bytes32 f.SenderSSRC ++
          bytes32 f.MediaSSRC).length + 8 * f.FIR.length := by
        rw [hsz]
        simp only [List.length_append, header_bytes_length, bytes32_length]
        omega
      rw [← List.append_assoc, ← List.append_assoc]
      conv_lhs => rw [e, List.drop_append]
      rw [overlay_drop f.FIR _ hb, List.drop_drop, hsz]
      simp only [firOffset, headerSize]
      congr 1
      omega
    refine ⟨_, fir_marshalTo_layout f buf2 h2, ?_, hd, key _ _ _ hd⟩
    simp only [List.length_append, header_bytes_length, bytes32_length]
    rw [overlay_length f.FIR _ hb, List.length_drop]
    simp only [firOffset, headerSize]
    omega

/-- C16 at buffers of 0xFF bytes longer than the packets: the bytes after the
packet are still 0xFF. -/
theorem C16_marshalTo_frame_witness :
    PictureLossIndication.MarshalTo ⟨1, 2⟩ (List.replicate 14 255) =
      .ok (12, [1, 206, 0, 2, 0, 0, 0, 1, 0, 0, 0, 2, 255, 255]) ∧
    ∃ out, FullIntraRequest.MarshalTo ⟨1, 2, [⟨3, 4⟩]⟩ (List.replicate 22 255) =
        .ok (FullIntraRequest.MarshalSize ⟨1, 2, [⟨3, 4⟩]⟩, out) ∧
      out.drop (FullIntraRequest.MarshalSize ⟨1, 2, [⟨3, 4⟩]⟩) =
        (List.replicate 22 255).drop (FullIntraRequest.MarshalSize ⟨1, 2, [⟨3, 4⟩]⟩) := by
  refine ⟨by decide, ?_⟩
  obtain ⟨out, h1, _, h3, _⟩ :=
    (C16_marshalTo_frame ⟨1, 2⟩ ⟨1, 2, [⟨3, 4⟩]⟩ (List.replicate 14 255) (List.replicate 22 255)
      (by decide) (by decide)).2
  exact ⟨out, h1, h3⟩

/-- C17 (code defect): FullIntraRequest.Unmarshal is not total.  On a 16-byte
slice whose FIR header declares the odd length 3 both length checks pass, the
loop runs at offset 12 and reads rawPacket[16], one past the end of the slice:
index out of range, after both SSRCs have been stored. -/
theorem C17_odd_length_panics :
    Header.Unmarshal [0x84, 206, 0, 3, 0, 0, 0, 1, 0, 0, 0, 2, 0, 0, 0, 3] = .ok ⟨4, 206, 3⟩ ∧
    [(0x84 : Byte), 206, 0, 3, 0, 0, 0, 1, 0, 0, 0, 2, 0, 0, 0, 3].length = 4 + 4 * 3 ∧
    index [0x84, 206, 0, 3, 0, 0, 0, 1, 0, 0, 0, 2, 0, 0, 0, 3] 16 = none ∧
    FullIntraRequest.Unmarshal FullIntraRequest.zero
      [0x84, 206, 0, 3, 0, 0, 0, 1, 0, 0, 0, 2, 0, 0, 0, 3] = (⟨1, 2, []⟩, some .panic) := by
  decide

/-- C18 (code defect): with the odd header length 3 the declared packet ends at
offset 16, yet the sequence number of the entry at offset 12 is read from byte
16.  Two accepted 17-byte slices that differ only in byte 16 decode to different
packets. -/
theorem C18_reads_past_declared_end :
    Header.Unmarshal [0x84, 206, 0, 3, 0, 0, 0, 1, 0, 0, 0, 2, 0, 0, 0, 3, 4] =
      .ok ⟨4, 206, 3⟩ ∧
    Header.Unmarshal [0x84, 206, 0, 3, 0, 0, 0, 1, 0, 0, 0, 2, 0, 0, 0, 3, 5] =
      .ok ⟨4, 206, 3⟩ ∧
    List.take 16 [(0x84 : Byte), 206, 0, 3, 0, 0, 0, 1, 0, 0, 0, 2, 0, 0, 0, 3, 4] =
      List.take 16 [0x84, 206, 0, 3, 0, 0, 0, 1, 0, 0, 0, 2, 0, 0, 0, 3, 5] ∧
    FullIntraRequest.Unmarshal FullIntraRequest.zero
      [0x84, 206, 0, 3, 0, 0, 0, 1, 0, 0, 0, 2, 0, 0, 0, 3, 4] = (⟨1, 2, [⟨3, 4⟩]⟩, none) ∧
    FullIntraRequest.Unmarshal FullIntraRequest.zero
      [0x84, 206, 0, 3, 0, 0, 0, 1, 0, 0, 0, 2, 0, 0, 0, 3, 5] = (⟨1, 2, [⟨3, 5⟩]⟩, none) := by
  decide

/-- C19: Unmarshal is atomic on failure.  Whenever PictureLossIndication.Unmarshal
or FullIntraRequest.Unmarshal returns an error, whichever it is, the receiver
after the call equals the receiver before the call. -/
theorem C19_unmarshal_atomic_on_error (p : PictureLossIndication) (f : FullIntraRequest)
    (raw : List Byte) :
    (∀ e, (PictureLossIndication.Unmarshal p raw).2 = some (.error e) →
      (PictureLossIndication.Unmarshal p raw).1 = p) ∧
    (∀ e, (FullIntraRequest.Unmarshal f raw).2 = some (.error e) →
      (FullIntraRequest.Unmarshal f raw).1 = f) :=
  ⟨fun e h => pli_unmarshal_error p raw e h, fun e h => fir_unmarshal_error f raw e h⟩

/-- C19 at a well-formed FIR packet given to the PLI decoder (WrongType) and at
a FIR header declaring more bytes than the slice holds (PacketTooShort). -/
theorem C19_unmarshal_atomic_on_error_witness :
    (PictureLossIndication.Unmarshal ⟨7, 8⟩
      [0x84, 206, 0, 3, 0, 0, 0, 1, 0, 0, 0, 2]).2 = some (.error .errWrongType) ∧
    (PictureLossIndication.Unmarshal ⟨7, 8⟩
      [0x84, 206, 0, 3, 0, 0, 0, 1, 0, 0, 0, 2]).1 = ⟨7, 8⟩ ∧
    (FullIntraRequest.Unmarshal ⟨7, 8, [⟨9, 10⟩]⟩
      [0x84, 206, 0, 3, 0, 0, 0, 1, 0, 0, 0, 2]).2 = some (.error .errPacketTooShort) ∧
    (FullIntraRequest.Unmarshal ⟨7, 8, [⟨9, 10⟩]⟩
      [0x84, 206, 0, 3, 0, 0, 0, 1, 0, 0, 0, 2]).1 = ⟨7, 8, [⟨9, 10⟩]⟩ :=
  ⟨by decide,
    (C19_unmarshal_atomic_on_error ⟨7, 8⟩ ⟨7, 8, [⟨9, 10⟩]⟩
      [0x84, 206, 0, 3, 0, 0, 0, 1, 0, 0, 0, 2]).1 .errWrongType (by decide),
    by decide,
    (C19_unmarshal_atomic_on_error ⟨7, 8⟩ ⟨7, 8, [⟨9, 10⟩]⟩
      [0x84, 206, 0, 3, 0, 0, 0, 1, 0, 0, 0, 2]).2 .errPacketTooShort (by decide)⟩

/-- C20: Unmarshal appends rather than replaces.  For every receiver q and every
slice b that Unmarshal accepts, after q.Unmarshal(b) SenderSSRC and MediaSSRC are
the decoded ones and FIR is the entries q held followed by the entries that
unmarshalling b into a zero-value receiver yields; so when b decodes to p in a
zero-value receiver, q.Unmarshal(b) gives p exactly when q held no entries. -/
theorem C20_unmarshal_appends (q : FullIntraRequest) (b : List Byte)
    (h : (FullIntraRequest.Unmarshal FullIntraRequest.zero b).2 = none) :
    FullIntraRequest.Unmarshal q b =
      (⟨(FullIntraRequest.Unmarshal FullIntraRequest.zero b).1.SenderSSRC,
        (FullIntraRequest.Unmarshal FullIntraRequest.zero b).1.MediaSSRC,
        q.FIR ++ (FullIntraRequest.Unmarshal FullIntraRequest.zero b).1.FIR⟩, none) ∧
    ∀ p, FullIntraRequest.Unmarshal FullIntraRequest.zero b = (p, none) →
      (FullIntraRequest.Unmarshal q b = (p, none) ↔ q.FIR = []) := by
  have main := fir_unmarshal_appends q b h
  refine ⟨main, fun p hp => ?_⟩
  rw [main, hp]
  obtain ⟨S, M, es⟩ := p
  simp

/-- C20 at a receiver holding one entry and a one-entry packet. -/
theorem C20_unmarshal_appends_witness :
    (FullIntraRequest.Unmarshal FullIntraRequest.zero
      [0x84, 206, 0, 4, 0, 0, 0, 1, 0, 0, 0, 2, 0, 0, 0, 3, 4, 0, 0, 0]).2 = none ∧
    FullIntraRequest.Unmarshal ⟨7, 8, [⟨9, 10⟩]⟩
      [0x84, 206, 0, 4, 0, 0, 0, 1, 0, 0, 0, 2, 0, 0, 0, 3, 4, 0, 0, 0] =
      (⟨1, 2, [⟨9, 10⟩, ⟨3, 4⟩]⟩, none) :=
  ⟨by decide,
    (C20_unmarshal_appends ⟨7, 8, [⟨9, 10⟩]⟩
      [0x84, 206, 0, 4, 0, 0, 0, 1, 0, 0, 0, 2, 0, 0, 0, 3, 4, 0, 0, 0] (by decide)).1.trans
      (by decide)⟩

end Rtcp
